import Mathlib

/-
  Verification development for the JewelryOps support-agent backend.

  The embedding models, over lists of characters:
  - the JSON subset handled by the Python json module (loads / dumps) as used
    by the repository (src/src/jewelryops and src/client);
  - the client-side frame interpreter (src/client/app.py);
  - the agent orchestration turn (src/src/jewelryops/agent/agent.py,
    JewelryOpsAgentService.run_agent_stream) with the completion streams and
    the tool executor abstracted as environment parameters;
  - the WebSocket chat endpoint (src/src/jewelryops/main.py, chat_ws);
  - the session persistence layer (src/src/jewelryops/services/context_service.py).
-/

set_option maxHeartbeats 1000000

/-- Strings are modelled as lists of characters so that the character-level
buffering of the client interpreter is directly expressible. -/
abbrev Str := List Char

/-- The opening brace character, written via its code point. -/
def lbrace : Char := Char.ofNat 123

/-- The closing brace character, written via its code point. -/
def rbrace : Char := Char.ofNat 125

/-- Whitespace characters stripped by Python str.lstrip / str.strip
(ASCII whitespace; the repository only ever strips ASCII text). -/
def pySpace (c : Char) : Bool :=
  c = ' ' || c = '\t' || c = '\n' || c = '\x0d' || c = '\x0b' || c = '\x0c'

/-- Whitespace accepted between JSON tokens by the json module. -/
def jsonSpace (c : Char) : Bool :=
  c = ' ' || c = '\t' || c = '\n' || c = '\x0d'

/-- Python str.lstrip(). -/
def pyLstrip (s : Str) : Str := s.dropWhile pySpace

/-- Python str.strip(). -/
def pyStrip (s : Str) : Str :=
  ((s.dropWhile pySpace).reverse.dropWhile pySpace).reverse

/-- Skip JSON inter-token whitespace. -/
def skipWs (s : Str) : Str := s.dropWhile jsonSpace

/-- Python str.rfind for a single character: index of the last occurrence. -/
def rfindChar (c : Char) : Str → Option Nat
  | [] => none
  | a :: rest =>
    match rfindChar c rest with
    | some i => some (i + 1)
    | none => if a = c then some 0 else none

/-- Decimal digit character for a value below ten. -/
def digitChar (n : Nat) : Char := Char.ofNat (48 + n)

/-- Decimal digits of a natural number, most significant first (fueled). -/
def natDigitsAux : Nat → Nat → Str
  | 0, _ => []
  | f + 1, n =>
    if n < 10 then [digitChar n]
    else natDigitsAux f (n / 10) ++ [digitChar (n % 10)]

/-- Decimal representation of a natural number, as Python str(int) writes it. -/
def natDigits (n : Nat) : Str := natDigitsAux (n + 1) n

/-- Decimal representation of an integer, as Python str(int) writes it. -/
def intStr (i : Int) : Str :=
  if i < 0 then '-' :: natDigits i.natAbs else natDigits i.toNat

/-- Value of a hexadecimal digit character, if it is one. -/
def hexDigitVal (c : Char) : Option Nat :=
  if '0' ≤ c ∧ c ≤ '9' then some (c.toNat - 48)
  else if 'a' ≤ c ∧ c ≤ 'f' then some (c.toNat - 87)
  else if 'A' ≤ c ∧ c ≤ 'F' then some (c.toNat - 55)
  else none

/-- Lower-case hexadecimal digit character for a value below sixteen. -/
def hexDigitChar (n : Nat) : Char :=
  if n < 10 then Char.ofNat (48 + n) else Char.ofNat (87 + n)

/-- Four-digit lower-case hexadecimal form of a value below 0x10000,
as the json module writes \uXXXX escapes. -/
def toHex4 (n : Nat) : Str :=
  [hexDigitChar (n / 4096 % 16), hexDigitChar (n / 256 % 16),
   hexDigitChar (n / 16 % 16), hexDigitChar (n % 16)]

/-- JSON values as produced by Python json.loads.  Integral numbers come back
as Python int (constructor int); non-integral number tokens (floats and the
NaN / Infinity constants) are kept as their raw token text, which is all the
repository ever needs of them. -/
inductive Json where
  | null : Json
  | bool (b : Bool) : Json
  | int (n : Int) : Json
  | numRaw (raw : Str) : Json
  | str (s : Str) : Json
  | arr (items : List Json) : Json
  | obj (members : List (Str × Json)) : Json

/-- Split a leading run of decimal digits from the input. -/
def takeDigits (s : Str) : Str × Str :=
  (s.takeWhile Char.isDigit, s.dropWhile Char.isDigit)

/-- Numeric value of a digit string. -/
def digitsVal (ds : Str) : Nat :=
  ds.foldl (fun a c => a * 10 + (c.toNat - 48)) 0

/-- Fraction part of a JSON number token (the optional group \.\d+ of the
Python scanner regex; nothing is consumed when it does not match). -/
def pFrac (rest1 : Str) : Str × Str :=
  match rest1 with
  | p1 :: t1 =>
    if p1 = '.' then
      match t1 with
      | d :: _ =>
        if d.isDigit then
          let x := takeDigits t1
          ('.' :: x.1, x.2)
        else ([], rest1)
      | [] => ([], rest1)
    else ([], rest1)
  | [] => ([], rest1)

/-- Exponent part of a JSON number token (the optional group [eE][+-]?\d+ of
the Python scanner regex; nothing is consumed when it does not match). -/
def pExp (rest2 : Str) : Str × Str :=
  match rest2 with
  | e :: t =>
    if e = 'e' ∨ e = 'E' then
      match t with
      | sg :: t2 =>
        if sg = '+' ∨ sg = '-' then
          match t2 with
          | d :: _ =>
            if d.isDigit then
              let x := takeDigits t2
              (e :: sg :: x.1, x.2)
            else ([], rest2)
          | [] => ([], rest2)
        else if sg.isDigit then
          let x := takeDigits t
          (e :: x.1, x.2)
        else ([], rest2)
      | [] => ([], rest2)
    else ([], rest2)
  | [] => ([], rest2)

/-- Parse a JSON number token (Python scanner NUMBER_RE): an optional minus,
an integer part without leading zeros, then optional fraction and exponent.
Pure-integer tokens become Json.int; anything else keeps its raw text. -/
def pNumber (s : Str) : Option (Json × Str) :=
  let (neg, s1) : Bool × Str :=
    match s with
    | c :: r => if c = '-' then (true, r) else (false, s)
    | [] => (false, s)
  match s1 with
  | [] => none
  | c :: r =>
    if ¬ c.isDigit then none
    else
      let (ids, rest1) : Str × Str :=
        if c = '0' then (['0'], r) else takeDigits s1
      let fr := pFrac rest1
      let ex := pExp fr.2
      if fr.1 = [] ∧ ex.1 = [] then
        let v : Int := Int.ofNat (digitsVal ids)
        some (Json.int (if neg then -v else v), rest1)
      else
        some (Json.numRaw ((if neg then ['-'] else []) ++ ids ++ fr.1 ++ ex.1), ex.2)

/-- Consume an expected literal suffix. -/
def stripLit : Str → Str → Option Str
  | [], s => some s
  | l :: ls, c :: cs => if c = l then stripLit ls cs else none
  | _ :: _, [] => none

/-- Read four hexadecimal digits from the input. -/
def readHex4 (s : Str) : Option (Nat × Str) :=
  match s with
  | c1 :: c2 :: c3 :: c4 :: r =>
    match hexDigitVal c1, hexDigitVal c2, hexDigitVal c3, hexDigitVal c4 with
    | some h1, some h2, some h3, some h4 =>
      some (h1 * 4096 + h2 * 256 + h3 * 16 + h4, r)
    | _, _, _, _ => none
  | _ => none

/-- Decode the body of a JSON string literal after the opening quote, in the
json module's strict mode: raw control characters are rejected, escapes are
the JSON ones, and \uXXXX surrogate pairs are recombined.  A lone surrogate,
which Python would keep as an unpaired surrogate code unit, is mapped to the
replacement character (Lean characters cannot hold surrogates); no theorem
below depends on that corner. -/
def parseStringBodyF : Nat → Str → Option (Str × Str)
  | 0, _ => none
  | f + 1, s =>
    match s with
    | [] => none
    | c :: rest =>
      if c = '"' then some ([], rest)
      else if c = '\\' then
        match rest with
        | [] => none
        | e :: r2 =>
          if e = '"' then (parseStringBodyF f r2).map (fun p => ('"' :: p.1, p.2))
          else if e = '\\' then (parseStringBodyF f r2).map (fun p => ('\\' :: p.1, p.2))
          else if e = '/' then (parseStringBodyF f r2).map (fun p => ('/' :: p.1, p.2))
          else if e = 'b' then (parseStringBodyF f r2).map (fun p => ('\x08' :: p.1, p.2))
          else if e = 'f' then (parseStringBodyF f r2).map (fun p => ('\x0c' :: p.1, p.2))
          else if e = 'n' then (parseStringBodyF f r2).map (fun p => ('\n' :: p.1, p.2))
          else if e = 'r' then (parseStringBodyF f r2).map (fun p => ('\x0d' :: p.1, p.2))
          else if e = 't' then (parseStringBodyF f r2).map (fun p => ('\t' :: p.1, p.2))
          else if e = 'u' then
            match readHex4 r2 with
            | none => none
            | some (n, r3) =>
              if 0xD800 ≤ n ∧ n ≤ 0xDBFF then
                match r3 with
                | b1 :: b2 :: r3x =>
                  if b1 = '\\' ∧ b2 = 'u' then
                    match readHex4 r3x with
                    | some (m, r4) =>
                      if 0xDC00 ≤ m ∧ m ≤ 0xDFFF then
                        let cp := 0x10000 + (n - 0xD800) * 1024 + (m - 0xDC00)
                        (parseStringBodyF f r4).map (fun p => (Char.ofNat cp :: p.1, p.2))
                      else
                        (parseStringBodyF f r3).map (fun p => ('�' :: p.1, p.2))
                    | none =>
                      (parseStringBodyF f r3).map (fun p => ('�' :: p.1, p.2))
                  else
                    (parseStringBodyF f r3).map (fun p => ('�' :: p.1, p.2))
                | _ =>
                  (parseStringBodyF f r3).map (fun p => ('�' :: p.1, p.2))
              else if 0xDC00 ≤ n ∧ n ≤ 0xDFFF then
                (parseStringBodyF f r3).map (fun p => ('�' :: p.1, p.2))
              else
                (parseStringBodyF f r3).map (fun p => (Char.ofNat n :: p.1, p.2))
          else none
      else if c.toNat < 0x20 then none
      else (parseStringBodyF f rest).map (fun p => (c :: p.1, p.2))

/-- Decode the body of a JSON string literal, with fuel large enough for any
input (the fueled decoder emits at least one character per fuel unit). -/
def parseStringBody (s : Str) : Option (Str × Str) :=
  parseStringBodyF (s.length + 1) s

mutual

/-- Parse one JSON value (fueled recursive-descent mirror of the Python json
scanner).  The input is assumed to start at a value position with leading
whitespace already skipped. -/
def pVal : Nat → Str → Option (Json × Str)
  | 0, _ => none
  | f + 1, s =>
    match s with
    | [] => none
    | c :: rest =>
      if c = lbrace then
        let r := skipWs rest
        match r with
        | d :: r2 =>
          if d = rbrace then some (Json.obj [], r2)
          else (pMembers f r).map (fun p => (Json.obj p.1, p.2))
        | [] => none
      else if c = '[' then
        let r := skipWs rest
        match r with
        | d :: r2 =>
          if d = ']' then some (Json.arr [], r2)
          else (pItems f r).map (fun p => (Json.arr p.1, p.2))
        | [] => none
      else if c = '"' then
        (parseStringBody rest).map (fun p => (Json.str p.1, p.2))
      else if c = 't' then
        (stripLit ['r', 'u', 'e'] rest).map (fun r => (Json.bool true, r))
      else if c = 'f' then
        (stripLit ['a', 'l', 's', 'e'] rest).map (fun r => (Json.bool false, r))
      else if c = 'n' then
        (stripLit ['u', 'l', 'l'] rest).map (fun r => (Json.null, r))
      else if c = 'N' then
        (stripLit ['a', 'N'] rest).map (fun r => (Json.numRaw ['N', 'a', 'N'], r))
      else if c = 'I' then
        (stripLit ['n', 'f', 'i', 'n', 'i', 't', 'y'] rest).map
          (fun r => (Json.numRaw ['I', 'n', 'f', 'i', 'n', 'i', 't', 'y'], r))
      else if c = '-' then
        match rest with
        | r0 :: r2 =>
          if r0 = 'I' then
            (stripLit ['n', 'f', 'i', 'n', 'i', 't', 'y'] r2).map
              (fun r => (Json.numRaw ('-' :: ['I', 'n', 'f', 'i', 'n', 'i', 't', 'y']), r))
          else pNumber s
        | [] => pNumber s
      else if c.isDigit then pNumber s
      else none

/-- Parse the members of a JSON object after the opening brace, positioned at
the first key (whitespace skipped, object known non-empty). -/
def pMembers : Nat → Str → Option (List (Str × Json) × Str)
  | 0, _ => none
  | f + 1, s =>
    match s with
    | c :: rest =>
      if c = '"' then
        match parseStringBody rest with
        | some (k, r1) =>
          match skipWs r1 with
          | c2 :: r3 =>
            if c2 = ':' then
              match pVal f (skipWs r3) with
              | some (v, r4) =>
                match skipWs r4 with
                | c3 :: r6 =>
                  if c3 = ',' then
                    (pMembers f (skipWs r6)).map (fun p => ((k, v) :: p.1, p.2))
                  else if c3 = rbrace then some ([(k, v)], r6)
                  else none
                | [] => none
              | none => none
            else none
          | [] => none
        | none => none
      else none
    | [] => none

/-- Parse the items of a JSON array after the opening bracket, positioned at
the first item (whitespace skipped, array known non-empty). -/
def pItems : Nat → Str → Option (List Json × Str)
  | 0, _ => none
  | f + 1, s =>
    match pVal f s with
    | some (v, r1) =>
      match skipWs r1 with
      | c :: r2 =>
        if c = ',' then
          (pItems f (skipWs r2)).map (fun p => (v :: p.1, p.2))
        else if c = ']' then some ([v], r2)
        else none
      | [] => none
    | none => none

end

/-- Python json.loads: skip leading whitespace, parse one value, and require
that only whitespace follows. -/
def jsonLoads (s : Str) : Option Json :=
  match pVal (s.length + 1) (skipWs s) with
  | some (v, rest) => if skipWs rest = [] then some v else none
  | none => none

/-- Escape one character the way json.dumps (ensure_ascii default) does:
printable ASCII other than quote and backslash is literal, the short escapes
are used where they exist, and everything else becomes \uXXXX (a surrogate
pair above 0xFFFF). -/
def escChar (c : Char) : Str :=
  if c = '"' then ['\\', '"']
  else if c = '\\' then ['\\', '\\']
  else if c = '\x08' then ['\\', 'b']
  else if c = '\t' then ['\\', 't']
  else if c = '\n' then ['\\', 'n']
  else if c = '\x0c' then ['\\', 'f']
  else if c = '\x0d' then ['\\', 'r']
  else if 0x20 ≤ c.toNat ∧ c.toNat ≤ 0x7E then [c]
  else if c.toNat < 0x10000 then '\\' :: 'u' :: toHex4 c.toNat
  else
    let n := c.toNat - 0x10000
    ('\\' :: 'u' :: toHex4 (0xD800 + n / 1024)) ++ ('\\' :: 'u' :: toHex4 (0xDC00 + n % 1024))

/-- Escaped body of a JSON string literal. -/
def escBody (s : Str) : Str := s.flatMap escChar

mutual

/-- Python json.dumps with its default separators (", " and ": ") and
default ensure_ascii. -/
def dumps : Json → Str
  | Json.null => ['n', 'u', 'l', 'l']
  | Json.bool true => ['t', 'r', 'u', 'e']
  | Json.bool false => ['f', 'a', 'l', 's', 'e']
  | Json.int n => intStr n
  | Json.numRaw raw => raw
  | Json.str s => '"' :: escBody s ++ ['"']
  | Json.arr [] => ['[', ']']
  | Json.arr (x :: xs) => '[' :: dumps x ++ dumpsItems xs ++ [']']
  | Json.obj [] => [lbrace, rbrace]
  | Json.obj (m :: ms) =>
    lbrace :: dumpsMember m ++ dumpsMembers ms ++ [rbrace]

/-- Remaining array items, each preceded by the item separator. -/
def dumpsItems : List Json → Str
  | [] => []
  | x :: xs => ',' :: ' ' :: dumps x ++ dumpsItems xs

/-- One object member: quoted key, key separator, value. -/
def dumpsMember : Str × Json → Str
  | (k, v) => '"' :: escBody k ++ ['"', ':', ' '] ++ dumps v

/-- Remaining object members, each preceded by the item separator. -/
def dumpsMembers : List (Str × Json) → Str
  | [] => []
  | m :: ms => ',' :: ' ' :: dumpsMember m ++ dumpsMembers ms

end

mutual

/-- Size measure used as parser fuel in the round-trip proof. -/
def jsize : Json → Nat
  | Json.null => 1
  | Json.bool _ => 1
  | Json.int _ => 1
  | Json.numRaw _ => 1
  | Json.str _ => 1
  | Json.arr l => 1 + jsizeItems l
  | Json.obj l => 1 + jsizeMembers l

/-- Size of a list of array items. -/
def jsizeItems : List Json → Nat
  | [] => 0
  | x :: xs => 1 + jsize x + jsizeItems xs

/-- Size of a list of object members. -/
def jsizeMembers : List (Str × Json) → Nat
  | [] => 0
  | (_, v) :: ms => 1 + jsize v + jsizeMembers ms

end

mutual

/-- Values free of raw number tokens: exactly those the repository
serializes, for which dumps-then-loads is an exact round trip. -/
def noRaw : Json → Bool
  | Json.null => true
  | Json.bool _ => true
  | Json.int _ => true
  | Json.numRaw _ => false
  | Json.str _ => true
  | Json.arr l => noRawItems l
  | Json.obj l => noRawMembers l

/-- All array items are free of raw number tokens. -/
def noRawItems : List Json → Bool
  | [] => true
  | x :: xs => noRaw x && noRawItems xs

/-- All object member values are free of raw number tokens. -/
def noRawMembers : List (Str × Json) → Bool
  | [] => true
  | (_, v) :: ms => noRaw v && noRawMembers ms

end

/-- Python truthiness of a float token: zero-valued mantissas are falsy.
Only the repository-unreachable fallback paths consult this. -/
def numRawTruthy (raw : Str) : Bool :=
  ¬ (raw.takeWhile (fun c => c ≠ 'e' ∧ c ≠ 'E')).all
      (fun c => c = '0' ∨ c = '.' ∨ c = '-' ∨ c = '+')

/-- Python truthiness of a JSON-decoded value. -/
def pyTruthy : Json → Bool
  | Json.null => false
  | Json.bool b => b
  | Json.int n => n ≠ 0
  | Json.numRaw raw => numRawTruthy raw
  | Json.str s => !s.isEmpty
  | Json.arr l => !l.isEmpty
  | Json.obj l => !l.isEmpty

/-- Python dict.get over the member list of a decoded JSON object: a later
binding of the same key shadows an earlier one, as in dict construction. -/
def pyDictGet (kvs : List (Str × Json)) (k : Str) : Option Json :=
  match kvs with
  | [] => none
  | (k2, v) :: rest =>
    match pyDictGet rest k with
    | some r => some r
    | none => if k2 = k then some v else none

/-- Python repr() of a string, approximated with single quotes and
backslash escaping; no theorem below depends on this fallback rendering. -/
def pyReprStr (s : Str) : Str :=
  '\'' :: s.flatMap (fun c => if c = '\\' ∨ c = '\'' then ['\\', c] else [c]) ++ ['\'']

mutual

/-- Python repr() of a JSON-decoded value, used by str() on containers;
only the repository-unreachable fallback paths consult it. -/
def pyRepr : Json → Str
  | Json.null => ['N', 'o', 'n', 'e']
  | Json.bool true => ['T', 'r', 'u', 'e']
  | Json.bool false => ['F', 'a', 'l', 's', 'e']
  | Json.int n => intStr n
  | Json.numRaw raw => raw
  | Json.str s => pyReprStr s
  | Json.arr [] => ['[', ']']
  | Json.arr (x :: xs) => '[' :: pyRepr x ++ pyReprItems xs ++ [']']
  | Json.obj [] => [lbrace, rbrace]
  | Json.obj (m :: ms) => lbrace :: pyReprMember m ++ pyReprMembers ms ++ [rbrace]

/-- Remaining list items in a Python repr. -/
def pyReprItems : List Json → Str
  | [] => []
  | x :: xs => ',' :: ' ' :: pyRepr x ++ pyReprItems xs

/-- One dict member in a Python repr. -/
def pyReprMember : Str × Json → Str
  | (k, v) => pyReprStr k ++ [':', ' '] ++ pyRepr v

/-- Remaining dict members in a Python repr. -/
def pyReprMembers : List (Str × Json) → Str
  | [] => []
  | m :: ms => ',' :: ' ' :: pyReprMember m ++ pyReprMembers ms

end

/-- Python str() of a JSON-decoded value. -/
def pyStr : Json → Str
  | Json.str s => s
  | j => pyRepr j

/-- First truthy value among obj.get(k) for the given keys, mirroring the
Python chains a or b or c followed by an if-truthiness test. -/
def firstTruthy (kvs : List (Str × Json)) : List Str → Option Json
  | [] => none
  | k :: rest =>
    match pyDictGet kvs k with
    | some v => if pyTruthy v then some v else firstTruthy kvs rest
    | none => firstTruthy kvs rest

/-
  Client-side frame interpreter: src/client/app.py.
-/

/-- Tool-list keys recognized by _format_json_prefix of the client. -/
def toolListKeys : List Str :=
  ["tools".data, "tool_calls".data, "called_tools".data, "tools_used".data]

/-- Rationale keys recognized by _format_json_prefix of the client. -/
def thoughtKeys : List Str :=
  ["thoughts".data, "analysis".data, "reasoning".data, "plan".data]

/-- The client function _format_json_prefix: renders a recognized leading
JSON object as the Investigation Steps and Thoughts sections; unrecognized
content renders as nothing. -/
def formatJsonLeading : Json → Str
  | Json.obj kvs =>
    let tools := firstTruthy kvs toolListKeys
    let thoughts := firstTruthy kvs thoughtKeys
    let toolsPart : Str :=
      match tools with
      | none => []
      | some tv =>
        "Investigation Steps:\n".data ++
          (match tv with
           | Json.arr items =>
             (items.enum.map (fun p =>
               let nm : Str :=
                 match p.2 with
                 | Json.str s => s
                 | Json.obj okvs =>
                   (match firstTruthy okvs ["name".data, "tool".data] with
                    | some v => pyStr v
                    | none => dumps p.2)
                 | t => pyStr t
               natDigits (p.1 + 1) ++ ". ".data ++ nm ++ ['\n'])).flatten
           | _ => "- Tools: ".data ++ pyStr tv ++ ['\n'])
    let thoughtsPart : Str :=
      match thoughts with
      | none => []
      | some th => "\nThoughts:\n".data ++ pyStrip (pyStr th) ++ "\n\n".data
    toolsPart ++ thoughtsPart
  | _ => []

/-- The client function _process_leading_json: returns
(replacement text, remaining text, still buffering). -/
def processLeadingJson (b : Str) : Str × Str × Bool :=
  let s := pyLstrip b
  if s = [] then ([], [], true)
  else if s.head? ≠ some lbrace then ([], b, false)
  else
    match rfindChar rbrace s with
    | none => ([], [], true)
    | some i =>
      match jsonLoads (s.take (i + 1)) with
      | none => ([], [], true)
      | some o => (formatJsonLeading o, s.drop (i + 1), false)

/-- Frames of the WebSocket protocol, as read by the client. -/
inductive WsFrame where
  | token (data : Str) : WsFrame
  | done (sessionId : Str) (toolCallsCount : Int) : WsFrame
  | error (data : Str) : WsFrame
deriving DecidableEq

/-- State of the client interpreter: the prefix buffer and the in-prefix
flag of ws_token_stream. -/
structure CState where
  buffer : Str
  inPfx : Bool
deriving DecidableEq

/-- Initial interpreter state at turn start. -/
def clientInit : CState := ⟨[], true⟩

/-- Processing of one token frame by ws_token_stream: returns the emitted
text and the next state. -/
def clientTok (st : CState) (tok : Str) : Str × CState :=
  if st.inPfx then
    let buf := st.buffer ++ tok
    let r := processLeadingJson buf
    if r.2.2 then ([], ⟨buf, true⟩)
    else (r.1 ++ r.2.1, ⟨buf, false⟩)
  else (tok, st)

/-- Terminal outcome of one client read loop. -/
inductive COut where
  | pending : COut
  | finished : COut
  | failed (msg : Str) : COut
deriving DecidableEq

/-- The client read loop of ws_token_stream over a frame list: emitted text,
final state, and outcome.  A done frame flushes the raw buffer if still
in-prefix and returns; an error frame raises RuntimeError with the frame
message (or a fixed fallback when it is empty), emitting nothing. -/
def clientRun (st : CState) : List WsFrame → Str × CState × COut
  | [] => ([], st, COut.pending)
  | f :: rest =>
    match f with
    | WsFrame.token t =>
      let e := clientTok st t
      let r := clientRun e.2 rest
      (e.1 ++ r.1, r.2)
    | WsFrame.done _ _ =>
      ((if st.inPfx ∧ st.buffer ≠ [] then st.buffer else []), st, COut.finished)
    | WsFrame.error m =>
      ([], st, COut.failed (if m = [] then "Unknown error".data else m))

/-
  Agent orchestration: src/src/jewelryops/agent/agent.py.
-/

/-- One transcript message of a session (role and content). -/
structure Msg where
  role : Str
  content : Str
deriving DecidableEq

/-- Per-session conversation state (class SessionState of agent.py). -/
structure SessionState where
  sessionId : Str
  messages : List Msg
  investigationSummary : Str
  toolCallsCount : Int
deriving DecidableEq

/-- The function field of a streamed tool-call delta; empty strings model
absent (falsy) attributes, as the code tests them by truthiness. -/
structure ToolFn where
  name : Str
  arguments : Str
deriving DecidableEq

/-- One streamed tool-call delta. -/
structure ToolCallDelta where
  index : Option Nat
  id : Str
  func : Option ToolFn
deriving DecidableEq

/-- The delta of one streamed choice: tool-call deltas and text content. -/
structure DeltaMsg where
  toolCalls : List ToolCallDelta
  content : Str
deriving DecidableEq

/-- One streamed completion chunk. -/
structure Chunk where
  choices : List DeltaMsg
deriving DecidableEq

/-- One assembled tool call (entry of tool_calls_made). -/
structure ToolCall where
  id : Str
  name : Str
  arguments : Str
deriving DecidableEq

/-- The empty placeholder appended while pre-extending tool_calls_made. -/
def emptyCall : ToolCall := ⟨[], [], []⟩

/-- Pre-extend the assembled list with empty placeholders up to an index. -/
def extendTo (l : List ToolCall) (i : Nat) : List ToolCall :=
  l ++ List.replicate (i + 1 - l.length) emptyCall

/-- Merge one delta into an assembled entry: a truthy id or name overwrites,
argument fragments are concatenated in arrival order. -/
def updCall (tc : ToolCall) (d : ToolCallDelta) : ToolCall :=
  let id1 := if d.id ≠ [] then d.id else tc.id
  match d.func with
  | none => ⟨id1, tc.name, tc.arguments⟩
  | some f =>
    ⟨id1,
     if f.name ≠ [] then f.name else tc.name,
     if f.arguments ≠ [] then tc.arguments ++ f.arguments else tc.arguments⟩

/-- Apply one tool-call delta to the assembled list (indexless deltas are
ignored, as in the None check of the code). -/
def applyDelta (l : List ToolCall) (d : ToolCallDelta) : List ToolCall :=
  match d.index with
  | none => l
  | some i =>
    let l2 := extendTo l i
    l2.set i (updCall (l2.getD i emptyCall) d)

/-- Apply one chunk: the tool-call deltas of the first choice, in order. -/
def applyChunk (l : List ToolCall) (ch : Chunk) : List ToolCall :=
  match ch.choices with
  | [] => l
  | dm :: _ => dm.toolCalls.foldl applyDelta l

/-- The assembled tool_calls_made list after the first completion stream. -/
def assembleCalls (chunks : List Chunk) : List ToolCall :=
  chunks.foldl applyChunk []

/-- Messages of the working prompt list built during one turn. -/
inductive PMsg where
  | plain (role content : Str) : PMsg
  | assistantCalls (content : Option Str) (calls : List ToolCall) : PMsg
  | toolResult (id content : Str) : PMsg
deriving DecidableEq

/-- Environment of one turn: outcome of the first streamed completion, the
tool executor (execute_tool_async abstracted as an oracle), and outcome of
the second streamed completion.  An error value stands for the exception
classes caught by run_agent_stream (TimeoutError, ConnectionError,
ValueError). -/
structure AgentEnv where
  first : Except Str (List Chunk)
  exec : Str → Json → Except Str Str
  second : Except Str (List Chunk)

/-- Result of one modelled turn: the yielded strings, the mutated session,
the final working prompt list, and the trace of executor invocations. -/
structure RunResult where
  yields : List Str
  session : SessionState
  localMessages : List PMsg
  execTrace : List (Str × Json)

/-- Placeholder for the JSONDecodeError text interpolated by the code; its
exact wording is irrelevant to every claim. -/
def invalidArgsMsg : Str := "Error: invalid arguments".data

/-- The tool-execution loop over the assembled calls: number of counter
increments, appended tool messages, and executor invocations.  Calls with an
empty name are skipped outright; empty argument text parses as the empty
dict; a JSON parse failure substitutes an error string without invoking the
executor. -/
def runToolCalls (exec : Str → Json → Except Str Str) : List ToolCall → Nat × List PMsg × List (Str × Json)
  | [] => (0, [], [])
  | tc :: rest =>
    if tc.name = [] then runToolCalls exec rest
    else
      let step : PMsg × List (Str × Json) :=
        match (if tc.arguments = [] then some (Json.obj []) else jsonLoads tc.arguments) with
        | none => (PMsg.toolResult tc.id invalidArgsMsg, [])
        | some args =>
          match exec tc.name args with
          | Except.ok res => (PMsg.toolResult tc.id res, [(tc.name, args)])
          | Except.error e => (PMsg.toolResult tc.id ("Error: ".data ++ e), [(tc.name, args)])
      let r := runToolCalls exec rest
      (r.1 + 1, step.1 :: r.2.1, step.2 ++ r.2.2)

/-- The Investigation Steps yields: a header plus a numbered line per
non-empty tool name, or the fixed no-tools message. -/
def stepsYields (names : List Str) : List Str :=
  if names = [] then
    ["\nInvestigation Steps:\n(no tools were called for this query)\n".data]
  else
    "\nInvestigation Steps:\n".data ::
      names.enum.map (fun p => natDigits (p.1 + 1) ++ ". ".data ++ p.2 ++ ['\n'])

/-- The error text yielded when a caught exception aborts the turn. -/
def errYield (e : Str) : Str := "Error during agent execution: ".data ++ e

/-- Concatenated text deltas of the second completion stream. -/
def secondContents (chunks : List Chunk) : Str :=
  (chunks.map (fun ch =>
    match ch.choices with
    | d :: _ => d.content
    | [] => [])).flatten

/-- Character-by-character yields of streamed text. -/
def charYields (s : Str) : List Str := s.map (fun c => [c])

/-- Python list[-n:]. -/
def lastN (n : Nat) (l : List α) : List α := l.drop (l.length - n)

/-- Preview of one prior message in the system prompt (truncated to 200
characters with an ellipsis). -/
def contentPreview (c : Str) : Str :=
  if 200 < c.length then c.take 200 ++ "...".data else c

/-- The system message built by build_agent_async: static instructions,
optional prior investigation summary, and previews of the last five
messages. -/
def buildSystemMessage (sysPrompt : Str) (session : SessionState) : Str :=
  let parts1 : List Str := [sysPrompt]
  let parts2 : List Str :=
    if session.investigationSummary ≠ [] then
      ["\n Prior Investigation Summary\n".data ++ session.investigationSummary]
    else []
  let parts3 : List Str :=
    if session.messages ≠ [] then
      "\n Recent Conversation Context".data ::
        (lastN 5 session.messages).map
          (fun m => m.role ++ ": ".data ++ contentPreview m.content)
    else []
  List.intercalate ['\n'] (parts1 ++ parts2 ++ parts3)

/-- Role strings. -/
def roleUser : Str := "user".data

/-- Assistant role string. -/
def roleAssistant : Str := "assistant".data

/-- System role string. -/
def roleSystem : Str := "system".data

/-- One turn of JewelryOpsAgentService.run_agent_stream.  The user message
is appended to the session transcript first; the first completion stream is
consumed accumulating only tool-call deltas (its text deltas are dropped by
the code); if any delta arrived, tools are executed, the steps are yielded,
and a second completion is streamed as Thoughts; a caught completion
exception yields one error text.  The assistant entry and the summary are
committed only when full_response is non-empty. -/
def runAgentStream (sysPrompt : Str) (env : AgentEnv) (session : SessionState)
    (userMessage : Str) : RunResult :=
  let session0 : SessionState :=
    ⟨session.sessionId, session.messages ++ [⟨roleUser, userMessage⟩],
     session.investigationSummary, session.toolCallsCount⟩
  let sysMsg := buildSystemMessage sysPrompt session0
  let baseMsgs : List PMsg :=
    PMsg.plain roleSystem sysMsg ::
      (lastN 10 session0.messages).map (fun m => PMsg.plain m.role m.content) ++
      [PMsg.plain roleUser userMessage]
  match env.first with
  | Except.error e =>
    ⟨[errYield e], session0, baseMsgs, []⟩
  | Except.ok chunks =>
    let calls := assembleCalls chunks
    if calls = [] then
      ⟨[], session0, baseMsgs, []⟩
    else
      let goodCalls := calls.filter (fun tc => tc.name ≠ [])
      let msgs1 := baseMsgs ++
        (if goodCalls = [] then [] else [PMsg.assistantCalls none goodCalls])
      let r := runToolCalls env.exec calls
      let msgs2 := msgs1 ++ r.2.1
      let names := goodCalls.map (fun tc => tc.name)
      let session1 : SessionState :=
        ⟨session0.sessionId, session0.messages, session0.investigationSummary,
         session0.toolCallsCount + (r.1 : Int)⟩
      match env.second with
      | Except.error e =>
        ⟨stepsYields names ++ [errYield e], session1, msgs2, r.2.2⟩
      | Except.ok chunks2 =>
        let finalResp := secondContents chunks2
        let session2 : SessionState :=
          if finalResp = [] then session1
          else
            ⟨session1.sessionId,
             session1.messages ++ [⟨roleAssistant, finalResp⟩],
             finalResp.take 500, session1.toolCallsCount⟩
        ⟨stepsYields names ++ ["\nThoughts:\n".data] ++ charYields finalResp,
         session2, msgs2, r.2.2⟩

/-
  WebSocket chat endpoint: src/src/jewelryops/main.py, chat_ws.
-/

/-- The global session map SESSIONS. -/
abbrev SMap := List (Str × SessionState)

/-- Lookup in the session map. -/
def smapGet (m : SMap) (k : Str) : Option SessionState :=
  match m with
  | [] => none
  | (k2, v) :: rest => if k2 = k then some v else smapGet rest k

/-- Insert or replace in the session map. -/
def smapInsert (m : SMap) (k : Str) (v : SessionState) : SMap :=
  match m with
  | [] => [(k, v)]
  | (k2, v2) :: rest =>
    if k2 = k then (k, v) :: rest else (k2, v2) :: smapInsert rest k v

/-- A freshly created session. -/
def freshSession (sid : Str) : SessionState := ⟨sid, [], [], 0⟩

/-- get_session: return or lazily create the session for an id. -/
def getSession (m : SMap) (sid : Str) : SessionState × SMap :=
  match smapGet m sid with
  | some s => (s, m)
  | none => (freshSession sid, smapInsert m sid (freshSession sid))

/-- The session id extracted by chat_ws:
str(payload.get("session_id") or "default"). -/
def extractSid (kvs : List (Str × Json)) : Str :=
  match pyDictGet kvs "session_id".data with
  | none => "default".data
  | some v => if pyTruthy v then pyStr v else "default".data

/-- The message extracted by chat_ws:
str(payload.get("message") or "").strip(). -/
def extractMsg (kvs : List (Str × Json)) : Str :=
  match pyDictGet kvs "message".data with
  | none => []
  | some v => if pyTruthy v then pyStrip (pyStr v) else []

/-- Result of one chat_ws exchange: frames sent, resulting session map,
whether the server closed the connection, and whether the handler escaped
with an unhandled exception (payload.get on a non-dict payload). -/
structure ChatOut where
  frames : List WsFrame
  sessions : SMap
  closed : Bool
  crashed : Bool
deriving DecidableEq

/-- One chat_ws exchange: validate the payload, run the agent turn, forward
non-empty yields as token frames, and finish with a done frame carrying the
session id and the session's tool-call counter. -/
def chatWs (sysPrompt : Str) (env : AgentEnv) (sessions : SMap) (raw : Str) : ChatOut :=
  match jsonLoads raw with
  | none => ⟨[WsFrame.error "Invalid JSON payload".data], sessions, true, false⟩
  | some (Json.obj kvs) =>
    let sid := extractSid kvs
    let msg := extractMsg kvs
    if msg = [] then ⟨[WsFrame.error "Empty message".data], sessions, true, false⟩
    else
      let g := getSession sessions sid
      let r := runAgentStream sysPrompt env g.1 msg
      let sessions2 := smapInsert g.2 sid r.session
      let g2 := getSession sessions2 sid
      ⟨(r.yields.filter (fun t => t ≠ [])).map WsFrame.token ++
         [WsFrame.done sid g2.1.toolCallsCount],
       g2.2, false, false⟩
  | some _ => ⟨[], sessions, true, true⟩

/-- Successive chat_ws turns against the shared session map. -/
def runTurnsServer (sysPrompt : Str) (sessions : SMap) :
    List (Str × AgentEnv) → List (List WsFrame) × SMap
  | [] => ([], sessions)
  | t :: rest =>
    let out := chatWs sysPrompt t.2 sessions t.1
    let r := runTurnsServer sysPrompt out.sessions rest
    (out.frames :: r.1, r.2)

/-
  Session persistence: src/src/jewelryops/services/context_service.py.
  The external key-value store is modelled as a list of key/value pairs.
-/

/-- The external key-value store. -/
abbrev Store := List (Str × Str)

/-- Read a key from the store. -/
def storeGet (m : Store) (k : Str) : Option Str :=
  match m with
  | [] => none
  | (k2, v) :: rest => if k2 = k then some v else storeGet rest k

/-- Write a key to the store (TTL expiry is outside the model). -/
def storeSet (m : Store) (k : Str) (v : Str) : Store :=
  match m with
  | [] => [(k, v)]
  | (k2, v2) :: rest =>
    if k2 = k then (k, v) :: rest else (k2, v2) :: storeSet rest k v

/-- The Redis key for a session id (CONTEXT_KEY_PREFIX + session_id). -/
def ctxKey (sid : Str) : Str := "context:".data ++ sid

/-- JSON form of one transcript message. -/
def msgToJson (m : Msg) : Json :=
  Json.obj [("role".data, Json.str m.role), ("content".data, Json.str m.content)]

/-- The function _session_to_dict: serialize a SessionState to the dict that
is dumped to JSON. -/
def sessionToDict (st : SessionState) : Json :=
  Json.obj
    [("session_id".data, Json.str st.sessionId),
     ("messages".data, Json.arr (st.messages.map msgToJson)),
     ("investigation_summary".data, Json.str st.investigationSummary),
     ("tool_calls_count".data, Json.int st.toolCallsCount)]

/-- Recover one transcript message from its JSON form; shapes that the typed
SessionState cannot hold are rejected. -/
def msgOfJson : Json → Option Msg
  | Json.obj [(k1, Json.str r), (k2, Json.str c)] =>
    if k1 = "role".data ∧ k2 = "content".data then some ⟨r, c⟩ else none
  | _ => none

/-- Recover the transcript list from its JSON form. -/
def msgsOfJson : Json → Option (List Msg)
  | Json.arr items => items.mapM msgOfJson
  | _ => none

/-- Python int() of a JSON-decoded value where it is defined; float
truncation is not modelled (unreachable through _session_to_dict). -/
def pyIntOf : Json → Option Int
  | Json.int n => some n
  | Json.bool b => some (if b then 1 else 0)
  | _ => none

/-- The function _dict_to_session: rebuild a SessionState from a decoded
dict, with the same defaults for absent keys.  Values outside the typed
field shapes are rejected by the model. -/
def dictToSession (kvs : List (Str × Json)) : Option SessionState :=
  let sid : Option Str :=
    match pyDictGet kvs "session_id".data with
    | none => some []
    | some (Json.str s) => some s
    | some _ => none
  let msgs : Option (List Msg) :=
    match pyDictGet kvs "messages".data with
    | none => some []
    | some v => msgsOfJson v
  let summ : Option Str :=
    match pyDictGet kvs "investigation_summary".data with
    | none => some []
    | some (Json.str s) => some s
    | some _ => none
  let cnt : Option Int :=
    match pyDictGet kvs "tool_calls_count".data with
    | none => some 0
    | some v => pyIntOf v
  match sid, msgs, summ, cnt with
  | some a, some b, some c, some d => some ⟨a, b, c, d⟩
  | _, _, _, _ => none

/-- ContextService.save_context: serialize and write under the context key. -/
def saveContext (store : Store) (sid : Str) (st : SessionState) : Store :=
  storeSet store (ctxKey sid) (dumps (sessionToDict st))

/-- ContextService.get_context: read, decode, and rebuild; missing keys and
undecodable payloads give None. -/
def getContext (store : Store) (sid : Str) : Option SessionState :=
  match storeGet store (ctxKey sid) with
  | none => none
  | some raw =>
    match jsonLoads raw with
    | some (Json.obj kvs) => dictToSession kvs
    | _ => none

/-
  Client interpreter lemmas and claims C4, C5, C9.
-/

/-- Still-buffering test of the interpreter on a given buffer. -/
def stillBuffering (b : Str) : Bool := (processLeadingJson b).2.2

/-- Whether the buffer holds a close marker whose span parses as structured
data (the condition under which the interpreter resolves a leading block). -/
def spanParses (b : Str) : Bool :=
  match rfindChar rbrace (pyLstrip b) with
  | some i => (jsonLoads ((pyLstrip b).take (i + 1))).isSome
  | none => false

theorem clientRun_tokens_stay (parts : List Str) (buf : Str)
    (h : ∀ n, n ≤ parts.flatten.length → stillBuffering (buf ++ parts.flatten.take n) = true) :
    clientRun ⟨buf, true⟩ (parts.map WsFrame.token) =
      ([], ⟨buf ++ parts.flatten, true⟩, COut.pending) := by
  induction parts generalizing buf with
  | nil => simp [clientRun]
  | cons t ts ih =>
    have h1 : stillBuffering (buf ++ t) = true := by
      have h2 := h t.length (by rw [List.flatten_cons, List.length_append]; omega)
      rwa [List.flatten_cons, List.take_left] at h2
    have ih2 := ih (buf ++ t) (by
      intro n hn
      have h3 := h (t.length + n) (by rw [List.flatten_cons, List.length_append]; omega)
      rwa [List.flatten_cons, List.take_append, ← List.append_assoc] at h3)
    simp only [List.map_cons, clientRun, clientTok]
    simp only [stillBuffering] at h1
    simp [h1, ih2, List.flatten_cons]

theorem clientRun_tokens_out (parts : List Str) (buf : Str) :
    clientRun ⟨buf, false⟩ (parts.map WsFrame.token) =
      (parts.flatten, ⟨buf, false⟩, COut.pending) := by
  induction parts with
  | nil => simp [clientRun]
  | cons t ts ih => simp [clientRun, clientTok, ih]

theorem clientRun_tokens_append (parts : List Str) (st : CState) (fs : List WsFrame) :
    clientRun st (parts.map WsFrame.token ++ fs) =
      ((clientRun st (parts.map WsFrame.token)).1 ++
        (clientRun (clientRun st (parts.map WsFrame.token)).2.1 fs).1,
       (clientRun (clientRun st (parts.map WsFrame.token)).2.1 fs).2) := by
  induction parts generalizing st with
  | nil => simp [clientRun]
  | cons t ts ih => simp [clientRun, clientTok, ih]

theorem take_length_of_append (p x S : Str) (h : p ++ x = S) : S.take p.length = p := by
  subst h; exact List.take_left p x

theorem clientRun_out_done (parts : List Str) (buf : Str) (sid : Str) (cnt : Int) :
    clientRun ⟨buf, false⟩ (parts.map WsFrame.token ++ [WsFrame.done sid cnt]) =
      (parts.flatten, ⟨buf, false⟩, COut.finished) := by
  induction parts with
  | nil => simp [clientRun]
  | cons t ts ih => simp [clientRun, clientTok, ih]

theorem clientRun_resolves (S R : Str) (r : Nat) (sid : Str) (cnt : Int)
    (hrS : r ≤ S.length)
    (hstill : ∀ n, n < r → processLeadingJson (S.take n) = ([], [], true))
    (hres : ∀ n, r ≤ n → n ≤ S.length →
      processLeadingJson (S.take n) = (R, (S.take n).drop r, false)) :
    ∀ (parts : List Str) (buf : Str), buf ++ parts.flatten = S → buf.length < r →
      (clientRun ⟨buf, true⟩ (parts.map WsFrame.token ++ [WsFrame.done sid cnt])).1 =
        R ++ S.drop r := by
  intro parts
  induction parts with
  | nil =>
    intro buf hS hlt
    simp only [List.flatten_nil, List.append_nil] at hS
    subst hS
    omega
  | cons t ts ih =>
    intro buf hS hlt
    rw [List.flatten_cons, ← List.append_assoc] at hS
    have htk : S.take (buf ++ t).length = buf ++ t :=
      take_length_of_append _ _ _ hS
    have hlen : (buf ++ t).length ≤ S.length := by
      rw [← hS]; simp
    by_cases hc : (buf ++ t).length < r
    · have h1 : processLeadingJson (buf ++ t) = ([], [], true) := by
        have := hstill (buf ++ t).length hc
        rwa [htk] at this
      have ihh := ih (buf ++ t) hS hc
      simp [clientRun, clientTok, h1, ihh]
    · push_neg at hc
      have h1 : processLeadingJson (buf ++ t) = (R, (buf ++ t).drop r, false) := by
        have := hres (buf ++ t).length hc hlen
        rwa [htk] at this
      have hout := clientRun_out_done ts (buf ++ t) sid cnt
      have hdrop : (buf ++ t).drop r ++ ts.flatten = S.drop r := by
        rw [← hS, List.drop_append_of_le_length hc]
      simp [clientRun, clientTok, h1, hout, ← hdrop]

theorem dropWhile_append_all (p : Char → Bool) (l1 l2 : Str) (h : ∀ x ∈ l1, p x) :
    (l1 ++ l2).dropWhile p = l2.dropWhile p := by
  induction l1 with
  | nil => rfl
  | cons a t ih =>
    simp only [List.cons_append, List.dropWhile_cons, h a (by simp)]
    exact ih (fun x hx => h x (by simp [hx]))

theorem stillBuffering_of_unparsed (S ws rest : Str)
    (hS : S = ws ++ lbrace :: rest) (hws : ws.all pySpace = true)
    (hnospan : ∀ n, n ≤ S.length → spanParses (S.take n) = false) :
    ∀ n, n ≤ S.length → stillBuffering (S.take n) = true := by
  intro n hn
  by_cases hc : n ≤ ws.length
  · have ht : S.take n = ws.take n := by
      rw [hS, List.take_append_of_le_length hc]
    have hall : ∀ x ∈ ws.take n, pySpace x := fun x hx =>
      (List.all_eq_true.mp hws) x (List.mem_of_mem_take hx)
    have hl : pyLstrip (S.take n) = [] := by
      rw [ht]; exact List.dropWhile_eq_nil_iff.mpr hall
    simp [stillBuffering, processLeadingJson, hl]
  · push_neg at hc
    have ht : S.take n = ws ++ lbrace :: rest.take (n - ws.length - 1) := by
      rw [hS, List.take_append_eq_append_take,
        List.take_of_length_le (by omega : ws.length ≤ n)]
      obtain ⟨m, hm⟩ : ∃ m, n - ws.length = m + 1 := ⟨n - ws.length - 1, by omega⟩
      rw [hm, List.take_succ_cons]
      simp
    have hl : pyLstrip (S.take n) = lbrace :: rest.take (n - ws.length - 1) := by
      rw [ht]
      unfold pyLstrip
      rw [dropWhile_append_all pySpace ws _ (List.all_eq_true.mp hws),
        List.dropWhile_cons]
      simp [show pySpace lbrace = false from by decide]
    have hsp := hnospan n hn
    simp only [spanParses, hl] at hsp
    simp only [stillBuffering, processLeadingJson, hl]
    cases hrf : rfindChar rbrace (lbrace :: rest.take (n - ws.length - 1)) with
    | none => simp [hrf]
    | some i =>
      simp only [hrf] at hsp
      simp only [List.take_succ_cons] at hsp
      cases hjl : jsonLoads (lbrace :: (rest.take (n - ws.length - 1)).take i) with
      | none => simp [hrf, hjl]
      | some v => rw [hjl] at hsp; simp at hsp

/-- C5: for every token stream whose concatenation starts, after leading
whitespace, with the structured-data open marker but never contains a close
marker yielding a parseable span, the interpreter emits nothing while
streaming and flushes the entire raw buffered text verbatim on the done
frame. -/
theorem c5_unterminated_block_flushes_raw (parts : List Str) (ws rest sid : Str) (cnt : Int)
    (hS : parts.flatten = ws ++ lbrace :: rest) (hws : ws.all pySpace = true)
    (hnospan : ∀ n, n ≤ parts.flatten.length → spanParses (parts.flatten.take n) = false) :
    (clientRun clientInit (parts.map WsFrame.token)).1 = [] ∧
    (clientRun clientInit (parts.map WsFrame.token ++ [WsFrame.done sid cnt])).1 =
      parts.flatten := by
  have hstill := stillBuffering_of_unparsed parts.flatten ws rest hS hws hnospan
  have hrun := clientRun_tokens_stay parts [] (by
    intro n hn
    simpa using hstill n hn)
  have hinit : clientInit = (⟨[], true⟩ : CState) := rfl
  have hne : parts.flatten ≠ [] := by rw [hS]; simp
  constructor
  · rw [hinit, hrun]
  · rw [clientRun_tokens_append, hinit, hrun]
    simp [clientRun, hne]

/-- The concrete reply of the C4 round-trip property. -/
def c4Input : Str :=
  "\x7b\"tools\":[\"get_order\"],\"thoughts\":\"checked order\"\x7dRemaining text".data

/-- The formatted replacement the interpreter must emit for it. -/
def c4Replacement : Str :=
  "Investigation Steps:\n1. get_order\n\nThoughts:\nchecked order\n\n".data

/-- C4: for every way the concrete reply is split into tokens, the client
frame interpreter emits exactly the formatted Investigation Steps and
Thoughts text followed by the trailing plain text, and no character of the
structured-data span is emitted. -/
theorem c4_round_trip (parts : List Str) (sid : Str) (cnt : Int)
    (h : parts.flatten = c4Input) :
    (clientRun clientInit (parts.map WsFrame.token ++ [WsFrame.done sid cnt])).1 =
      c4Replacement ++ "Remaining text".data := by
  have hmain := clientRun_resolves c4Input c4Replacement 50 sid cnt
    (by decide)
    (by decide)
    (by decide)
    parts [] (by simpa using h) (by decide)
  have hdrop : c4Input.drop 50 = "Remaining text".data := by decide
  rw [show clientInit = (⟨[], true⟩ : CState) from rfl, hmain, hdrop]

/-- Witness for C4 at the single-token split. -/
theorem c4_round_trip_witness :
    (clientRun clientInit ([c4Input].map WsFrame.token ++ [WsFrame.done [] 0])).1 =
      c4Replacement ++ "Remaining text".data :=
  c4_round_trip [c4Input] [] 0 (by simp)

/-- Witness for C5 at a one-token stream holding an unterminated block. -/
theorem c5_unterminated_block_flushes_raw_witness :
    (clientRun clientInit (["\x7bab".data].map WsFrame.token)).1 = [] ∧
    (clientRun clientInit (["\x7bab".data].map WsFrame.token ++ [WsFrame.done [] 0])).1 =
      ["\x7bab".data].flatten :=
  c5_unterminated_block_flushes_raw ["\x7bab".data] [] "ab".data [] 0
    (by decide) (by decide) (by decide)

theorem clientRun_keepPfx (parts : List Str) (b : Str)
    (h : (clientRun ⟨b, true⟩ (parts.map WsFrame.token)).2.1.inPfx = true) :
    clientRun ⟨b, true⟩ (parts.map WsFrame.token) =
      ([], ⟨b ++ parts.flatten, true⟩, COut.pending) := by
  induction parts generalizing b with
  | nil => simp [clientRun]
  | cons t ts ih =>
    cases hpr : (processLeadingJson (b ++ t)).2.2 with
    | false =>
      exfalso
      have hout := clientRun_tokens_out ts (b ++ t)
      simp [clientRun, clientTok, hpr, hout] at h
    | true =>
      have hstep : clientTok ⟨b, true⟩ t = ([], ⟨b ++ t, true⟩) := by
        simp [clientTok, hpr]
      simp only [List.map_cons, clientRun, hstep] at h ⊢
      have ihh := ih (b ++ t) h
      simp [ihh, List.flatten_cons]

/-- C9: when the stream ends with an error frame while the interpreter is
still buffering a structured-data prefix, the buffered text is discarded
(nothing is emitted), the interpreter fails carrying the frame's message,
and the verbatim flush of the buffer does not happen. -/
theorem c9_error_frame_discards_buffer (parts : List Str) (m : Str) (hm : m ≠ [])
    (hp : (clientRun clientInit (parts.map WsFrame.token)).2.1.inPfx = true) :
    clientRun clientInit (parts.map WsFrame.token ++ [WsFrame.error m]) =
      ([], ⟨parts.flatten, true⟩, COut.failed m) := by
  have hinit : clientInit = (⟨[], true⟩ : CState) := rfl
  rw [hinit] at hp
  have hk := clientRun_keepPfx parts [] hp
  rw [clientRun_tokens_append, hinit, hk]
  simp [clientRun, hm]

/-- Witness for C9 at a one-token stream and a non-empty error message. -/
theorem c9_error_frame_discards_buffer_witness :
    clientRun clientInit (["\x7b".data].map WsFrame.token ++ [WsFrame.error "boom".data]) =
      ([], ⟨["\x7b".data].flatten, true⟩, COut.failed "boom".data) :=
  c9_error_frame_discards_buffer ["\x7b".data] "boom".data (by decide) (by decide)

/-
  Agent orchestration lemmas and claims C1, C2, C8.
-/

theorem digitChar_toNat (n : Nat) (h : n < 10) : (digitChar n).toNat = 48 + n := by
  interval_cases n <;> decide

theorem natDigitsAux_all_digits : ∀ f n c, c ∈ natDigitsAux f n →
    48 ≤ c.toNat ∧ c.toNat ≤ 57 := by
  intro f
  induction f with
  | zero => intro n c h; simp [natDigitsAux] at h
  | succ f ih =>
    intro n c h
    simp only [natDigitsAux] at h
    by_cases h10 : n < 10
    · rw [if_pos h10] at h
      simp only [List.mem_singleton] at h
      subst h
      rw [digitChar_toNat n h10]
      omega
    · rw [if_neg h10] at h
      rcases List.mem_append.mp h with h2 | h2
      · exact ih _ c h2
      · simp only [List.mem_singleton] at h2
        subst h2
        rw [digitChar_toNat _ (Nat.mod_lt n (by omega))]
        omega

theorem natDigitsAux_ne_nil (f n : Nat) (h : 0 < f) : natDigitsAux f n ≠ [] := by
  cases f with
  | zero => omega
  | succ f =>
    simp only [natDigitsAux]
    by_cases h10 : n < 10 <;> simp [h10]

theorem natDigits_head_cons (n : Nat) :
    ∃ c t, natDigits n = c :: t ∧ 48 ≤ c.toNat ∧ c.toNat ≤ 57 := by
  cases hd : natDigits n with
  | nil => exact absurd hd (natDigitsAux_ne_nil _ n (by omega))
  | cons c t =>
    refine ⟨c, t, rfl, ?_⟩
    have : c ∈ natDigits n := by rw [hd]; simp
    exact natDigitsAux_all_digits _ n c this

theorem errYield_cons (e : Str) :
    errYield e = 'E' :: ("rror during agent execution: ".data ++ e) := rfl

theorem errYield_not_mem_stepsYields (names : List Str) (e : Str) :
    errYield e ∉ stepsYields names := by
  unfold stepsYields
  by_cases h : names = []
  · rw [if_pos h]
    intro hmem
    simp only [List.mem_singleton, errYield_cons] at hmem
    have h2 := congrArg List.head? hmem
    simp at h2
  · rw [if_neg h]
    intro hmem
    rcases List.mem_cons.mp hmem with h2 | h2
    · have h3 := congrArg List.head? (errYield_cons e ▸ h2)
      simp at h3
    · rcases List.mem_map.mp h2 with ⟨p, _, hp⟩
      obtain ⟨c, t, hct, hlo, hhi⟩ := natDigits_head_cons (p.1 + 1)
      rw [hct] at hp
      have hhead := congrArg List.head? hp
      rw [errYield_cons] at hhead
      simp at hhead
      rw [hhead] at hhi
      exact absurd hhi (by decide)

/-- Aborting condition of one modelled turn: the first completion request
fails, or tool calls were produced and the second completion request fails
(the exception classes caught by run_agent_stream). -/
def TurnAborts (env : AgentEnv) (e : Str) : Prop :=
  env.first = Except.error e ∨
    (∃ cs, env.first = Except.ok cs ∧ assembleCalls cs ≠ [] ∧
      env.second = Except.error e)

/-- C2: when a completion request of the turn fails with a caught
timeout/connection error, the caller receives exactly one textual error
frame, it terminates the yields, no assistant entry is committed to the
session transcript (the user message from step 1 remains), and the
investigation summary is untouched. -/
theorem c2_completion_failure_aborts (sysPrompt : Str) (env : AgentEnv)
    (session : SessionState) (u e : Str) (h : TurnAborts env e) :
    (runAgentStream sysPrompt env session u).yields.count (errYield e) = 1 ∧
    (runAgentStream sysPrompt env session u).yields.getLast? = some (errYield e) ∧
    (runAgentStream sysPrompt env session u).session.messages =
      session.messages ++ [⟨roleUser, u⟩] ∧
    (runAgentStream sysPrompt env session u).session.investigationSummary =
      session.investigationSummary := by
  rcases h with h1 | ⟨cs, h1, hne, h2⟩
  · simp [runAgentStream, h1]
  · have hcount : ∀ (names : List Str), (stepsYields names).count (errYield e) = 0 :=
      fun names => List.count_eq_zero.mpr (errYield_not_mem_stepsYields names e)
    simp [runAgentStream, h1, h2, hne, List.count_append, hcount]

/-- Witness for C2 at a failing first completion request. -/
theorem c2_completion_failure_aborts_witness :
    (runAgentStream [] ⟨Except.error "timed out".data, fun _ _ => Except.ok [],
        Except.ok []⟩ (freshSession "s".data) "hi".data).yields.count
      (errYield "timed out".data) = 1 ∧
    (runAgentStream [] ⟨Except.error "timed out".data, fun _ _ => Except.ok [],
        Except.ok []⟩ (freshSession "s".data) "hi".data).yields.getLast? =
      some (errYield "timed out".data) ∧
    (runAgentStream [] ⟨Except.error "timed out".data, fun _ _ => Except.ok [],
        Except.ok []⟩ (freshSession "s".data) "hi".data).session.messages =
      (freshSession "s".data).messages ++ [⟨roleUser, "hi".data⟩] ∧
    (runAgentStream [] ⟨Except.error "timed out".data, fun _ _ => Except.ok [],
        Except.ok []⟩ (freshSession "s".data) "hi".data).session.investigationSummary =
      (freshSession "s".data).investigationSummary :=
  c2_completion_failure_aborts [] _ (freshSession "s".data) "hi".data
    "timed out".data (Or.inl rfl)

/-- The C1 failing environment: the first completion streams a single text
delta ("Hello") and no tool-call deltas; no tools, no second completion. -/
def c1Env : AgentEnv :=
  ⟨Except.ok [⟨[⟨[], "Hello".data⟩]⟩], fun _ _ => Except.ok [], Except.ok []⟩

/-- C1 (code evaluation at the failing input): when the first streamed
completion produces no tool-call deltas, the code yields nothing, commits no
assistant transcript entry (only the user message of step 1 is present), and
leaves the investigation summary untouched — the buffered text of the claim
is dropped because run_agent_stream never accumulates content deltas of the
first stream. -/
theorem c1_no_tool_call_text_dropped :
    (runAgentStream [] c1Env (freshSession "s".data) "hi".data).yields = [] ∧
    (runAgentStream [] c1Env (freshSession "s".data) "hi".data).session.messages =
      [⟨roleUser, "hi".data⟩] ∧
    (runAgentStream [] c1Env (freshSession "s".data) "hi".data).session.investigationSummary =
      [] := by
  refine ⟨?_, ?_, ?_⟩ <;> rfl

theorem runToolCalls_count (exec : Str → Json → Except Str Str) (calls : List ToolCall) :
    (runToolCalls exec calls).1 =
      (calls.filter (fun tc => tc.name ≠ [])).length := by
  induction calls with
  | nil => simp [runToolCalls]
  | cons tc rest ih =>
    by_cases h : tc.name = []
    · simp [runToolCalls, h, ih]
    · simp [runToolCalls, h, ih]

theorem runToolCalls_trace_names (exec : Str → Json → Except Str Str) (calls : List ToolCall) :
    ∀ p ∈ (runToolCalls exec calls).2.2, p.1 ≠ [] := by
  induction calls with
  | nil => simp [runToolCalls]
  | cons tc rest ih =>
    intro p hp
    by_cases h : tc.name = []
    · rw [show runToolCalls exec (tc :: rest) = runToolCalls exec rest from by
        simp [runToolCalls, h]] at hp
      exact ih p hp
    · simp only [runToolCalls, if_neg h] at hp
      cases hargs : (if tc.arguments = [] then some (Json.obj [])
          else jsonLoads tc.arguments) with
      | none =>
        rw [hargs] at hp
        simp at hp
        exact ih p hp
      | some args =>
        rw [hargs] at hp
        have hp2 : p = (tc.name, args) ∨ p ∈ (runToolCalls exec rest).2.2 := by
          cases hex : exec tc.name args <;> simp [hex] at hp <;> tauto
        rcases hp2 with hp2 | hp2
        · rw [hp2]; exact h
        · exact ih p hp2

/-- C8: a tool call assembled with an empty name is excluded everywhere: the
executor trace holds only non-empty names, the counter advances by exactly
the number of non-empty-named calls, and the yields are the steps section
for the non-empty names (or nothing at all when no delta arrived), so the
numbered Investigation Steps list never shows it. -/
theorem c8_empty_named_calls_excluded (sysPrompt : Str) (env : AgentEnv)
    (session : SessionState) (u : Str) (chunks cs2 : List Chunk)
    (h1 : env.first = Except.ok chunks) (h2 : env.second = Except.ok cs2) :
    (∀ p ∈ (runAgentStream sysPrompt env session u).execTrace, p.1 ≠ []) ∧
    (runAgentStream sysPrompt env session u).session.toolCallsCount =
      session.toolCallsCount +
        (((assembleCalls chunks).filter (fun tc => tc.name ≠ [])).length : Int) ∧
    (assembleCalls chunks = [] ∧ (runAgentStream sysPrompt env session u).yields = [] ∨
      (runAgentStream sysPrompt env session u).yields =
        stepsYields (((assembleCalls chunks).filter
            (fun tc => tc.name ≠ [])).map (fun tc => tc.name)) ++
          ["\nThoughts:\n".data] ++ charYields (secondContents cs2)) := by
  by_cases hc : assembleCalls chunks = []
  · refine ⟨?_, ?_, Or.inl ⟨hc, ?_⟩⟩ <;>
      simp [runAgentStream, h1, h2, hc]
  · have htr := runToolCalls_trace_names env.exec (assembleCalls chunks)
    have hcnt := runToolCalls_count env.exec (assembleCalls chunks)
    refine ⟨?_, ?_, Or.inr ?_⟩
    · intro p hp
      refine htr p ?_
      by_cases hresp : secondContents cs2 = [] <;>
        simpa [runAgentStream, h1, h2, hc, hresp] using hp
    · by_cases hresp : secondContents cs2 = [] <;>
        simp [runAgentStream, h1, h2, hc, hresp, hcnt]
    · by_cases hresp : secondContents cs2 = [] <;>
        simp [runAgentStream, h1, h2, hc, hresp]

/-- A first-completion chunk list assembling one named call and one call
whose name stays empty across all deltas. -/
def c8Chunks : List Chunk :=
  [⟨[⟨[⟨some 0, "idA".data, some ⟨"get_order".data, "\x7b\x7d".data⟩⟩,
       ⟨some 1, "idB".data, none⟩], []⟩]⟩]

/-- Environment for the C8 witness. -/
def c8Env : AgentEnv :=
  ⟨Except.ok c8Chunks, fun _ _ => Except.ok "ok".data, Except.ok []⟩

/-- Witness for C8 at a stream with one named and one empty-named call. -/
theorem c8_empty_named_calls_excluded_witness :
    (∀ p ∈ (runAgentStream [] c8Env (freshSession "s".data) "hi".data).execTrace,
      p.1 ≠ []) ∧
    (runAgentStream [] c8Env (freshSession "s".data) "hi".data).session.toolCallsCount =
      (freshSession "s".data).toolCallsCount +
        (((assembleCalls c8Chunks).filter (fun tc => tc.name ≠ [])).length : Int) ∧
    (assembleCalls c8Chunks = [] ∧
        (runAgentStream [] c8Env (freshSession "s".data) "hi".data).yields = [] ∨
      (runAgentStream [] c8Env (freshSession "s".data) "hi".data).yields =
        stepsYields (((assembleCalls c8Chunks).filter
            (fun tc => tc.name ≠ [])).map (fun tc => tc.name)) ++
          ["\nThoughts:\n".data] ++ charYields (secondContents [])) :=
  c8_empty_named_calls_excluded [] c8Env (freshSession "s".data) "hi".data
    c8Chunks [] rfl rfl

/-
  Server lemmas and claims C3, C6, C10.
-/

/-- Number of counter increments one turn performs: the non-empty-named
calls assembled from the first completion (zero when it failed). -/
def turnToolCount (env : AgentEnv) : Nat :=
  match env.first with
  | Except.ok cs => ((assembleCalls cs).filter (fun tc => tc.name ≠ [])).length
  | Except.error _ => 0

theorem runAgentStream_count (sysPrompt : Str) (env : AgentEnv)
    (session : SessionState) (u : Str) :
    (runAgentStream sysPrompt env session u).session.toolCallsCount =
      session.toolCallsCount + (turnToolCount env : Int) := by
  cases h1 : env.first with
  | error e => simp [runAgentStream, turnToolCount, h1]
  | ok cs =>
    by_cases hc : assembleCalls cs = []
    · simp [runAgentStream, turnToolCount, h1, hc]
    · cases h2 : env.second with
      | error e =>
        simp [runAgentStream, turnToolCount, h1, h2, hc, runToolCalls_count]
      | ok cs2 =>
        by_cases hresp : secondContents cs2 = [] <;>
          simp [runAgentStream, turnToolCount, h1, h2, hc, hresp, runToolCalls_count]

theorem smapGet_insert (m : SMap) (k : Str) (v : SessionState) :
    smapGet (smapInsert m k v) k = some v := by
  induction m with
  | nil => simp [smapInsert, smapGet]
  | cons p rest ih =>
    by_cases h : p.1 = k
    · simp [smapInsert, smapGet, h]
    · simp [smapInsert, smapGet, h, ih]

/-- The counter chat_ws reports for a session id (zero before creation). -/
def counterOf (m : SMap) (sid : Str) : Int :=
  match smapGet m sid with
  | some s => s.toolCallsCount
  | none => 0

theorem getSession_of_get (m : SMap) (sid : Str) (v : SessionState)
    (h : smapGet m sid = some v) : getSession m sid = (v, m) := by
  unfold getSession
  rw [h]

theorem chatWs_done (sysPrompt : Str) (sessions : SMap) (raw : Str)
    (env : AgentEnv) (sid : Str) (kvs : List (Str × Json))
    (hj : jsonLoads raw = some (Json.obj kvs)) (hsid : extractSid kvs = sid)
    (hmsg : extractMsg kvs ≠ []) :
    (chatWs sysPrompt env sessions raw).frames.getLast? =
      some (WsFrame.done sid (counterOf sessions sid + (turnToolCount env : Int))) ∧
    counterOf (chatWs sysPrompt env sessions raw).sessions sid =
      counterOf sessions sid + (turnToolCount env : Int) := by
  have hrc := runAgentStream_count sysPrompt env (getSession sessions sid).1
    (extractMsg kvs)
  have hbase : (getSession sessions sid).1.toolCallsCount = counterOf sessions sid := by
    unfold getSession counterOf
    cases hg : smapGet sessions sid <;> simp [hg, freshSession]
  have hins := smapGet_insert (getSession sessions sid).2 sid
    (runAgentStream sysPrompt env (getSession sessions sid).1 (extractMsg kvs)).session
  have hget2 := getSession_of_get _ sid _ hins
  constructor
  · simp [chatWs, hj, hsid, hmsg, hget2, hrc, hbase]
  · simp [chatWs, hj, hsid, hmsg, hget2, counterOf, hins, hrc, hbase]

/-- Well-formedness of one turn for the cumulative-counter claim: the
request parses to an object extracting the given session id and a non-empty
message, and the turn completes normally (the first completion succeeds, and
the second succeeds whenever the tool branch is taken). -/
def WFTurn (sid : Str) (t : Str × AgentEnv) : Prop :=
  (∃ kvs, jsonLoads t.1 = some (Json.obj kvs) ∧ extractSid kvs = sid ∧
    extractMsg kvs ≠ []) ∧
  (∃ cs, t.2.first = Except.ok cs) ∧
  (∀ cs, t.2.first = Except.ok cs → assembleCalls cs ≠ [] →
    ∃ cs2, t.2.second = Except.ok cs2)

/-- C3: across successive well-formed turns of one session, the terminal
done frame of the k-th turn reports the cumulative number of non-empty-named
tool calls executed over turns 0..k. -/
theorem c3_done_count_cumulative (sysPrompt sid : Str)
    (turns : List (Str × AgentEnv)) (hwf : ∀ t ∈ turns, WFTurn sid t)
    (k : Nat) (hk : k < turns.length) :
    ((runTurnsServer sysPrompt [] turns).1.getD k []).getLast? =
      some (WsFrame.done sid
        (((turns.take (k + 1)).map (fun t => (turnToolCount t.2 : Int))).sum)) := by
  suffices hgen : ∀ (ts : List (Str × AgentEnv)) (sessions : SMap),
      (∀ t ∈ ts, WFTurn sid t) → ∀ k, k < ts.length →
      ((runTurnsServer sysPrompt sessions ts).1.getD k []).getLast? =
        some (WsFrame.done sid (counterOf sessions sid +
          (((ts.take (k + 1)).map (fun t => (turnToolCount t.2 : Int))).sum))) by
    have h0 : counterOf [] sid = 0 := rfl
    have := hgen turns [] hwf k hk
    rwa [h0, zero_add] at this
  intro ts
  induction ts with
  | nil => intro sessions _ k hk; simp at hk
  | cons t rest ih =>
    intro sessions hwf2 k hk
    obtain ⟨⟨kvs, hj, hsid, hmsg⟩, _, _⟩ := hwf2 t (by simp)
    have hd := chatWs_done sysPrompt sessions t.1 t.2 sid kvs hj hsid hmsg
    cases k with
    | zero =>
      simp only [runTurnsServer, List.getD_cons_zero]
      rw [hd.1]
      simp
    | succ k =>
      have hih := ih (chatWs sysPrompt t.2 sessions t.1).sessions
        (fun x hx => hwf2 x (by simp [hx])) k (by simpa using hk)
      simp only [runTurnsServer, List.getD_cons_succ]
      rw [hih, hd.2]
      simp only [List.take_succ_cons, List.map_cons, List.sum_cons]
      rw [add_assoc]

/-- Witness for C3 at two concrete turns: the first executes one tool call,
the second none; the done frames report 1 and then 1 again. -/
theorem c3_done_count_cumulative_witness :
    ((runTurnsServer [] []
        [("\x7b\"session_id\": \"s\", \"message\": \"hi\"\x7d".data, c8Env),
         ("\x7b\"session_id\": \"s\", \"message\": \"again\"\x7d".data, c1Env)]).1.getD 1 []).getLast? =
      some (WsFrame.done "s".data
        ((([("\x7b\"session_id\": \"s\", \"message\": \"hi\"\x7d".data, c8Env),
            ("\x7b\"session_id\": \"s\", \"message\": \"again\"\x7d".data, c1Env)].take 2).map
          (fun t => (turnToolCount t.2 : Int))).sum)) :=
  c3_done_count_cumulative [] "s".data
    [("\x7b\"session_id\": \"s\", \"message\": \"hi\"\x7d".data, c8Env),
     ("\x7b\"session_id\": \"s\", \"message\": \"again\"\x7d".data, c1Env)]
    (by
      intro t ht
      simp only [List.mem_cons, List.mem_singleton] at ht
      rcases ht with ht | ht | ht
      · subst ht
        exact ⟨⟨[("session_id".data, Json.str "s".data),
                 ("message".data, Json.str "hi".data)], rfl, rfl, by decide⟩,
               ⟨c8Chunks, rfl⟩, fun cs hcs _ => ⟨[], by cases hcs; rfl⟩⟩
      · subst ht
        exact ⟨⟨[("session_id".data, Json.str "s".data),
                 ("message".data, Json.str "again".data)], rfl, rfl, by decide⟩,
               ⟨_, rfl⟩, fun cs hcs hne => absurd (by cases hcs; rfl) hne⟩
      · cases ht)
    1 (by decide)

/-- C6: a request whose payload is not parseable as JSON gets exactly one
error frame and no token or done frames, the connection is closed, and the
session map is untouched. -/
theorem c6_malformed_request (sysPrompt : Str) (env : AgentEnv) (sessions : SMap)
    (raw : Str) (h : jsonLoads raw = none) :
    chatWs sysPrompt env sessions raw =
      ⟨[WsFrame.error "Invalid JSON payload".data], sessions, true, false⟩ := by
  simp [chatWs, h]

/-- Witness for C6 at a non-JSON payload. -/
theorem c6_malformed_request_witness :
    chatWs [] c1Env [] "not json".data =
      ⟨[WsFrame.error "Invalid JSON payload".data], [], true, false⟩ :=
  c6_malformed_request [] c1Env [] "not json".data rfl

theorem extractSid_default (kvs : List (Str × Json))
    (h : pyDictGet kvs "session_id".data = none ∨
         pyDictGet kvs "session_id".data = some Json.null ∨
         pyDictGet kvs "session_id".data = some (Json.str [])) :
    extractSid kvs = "default".data := by
  unfold extractSid
  rcases h with h | h | h <;> simp [h, pyTruthy]

/-- C10: a request whose session_id is absent, null, or the empty string but
whose message is non-empty is not rejected: the turn is processed under the
session id "default", the done frame reports that id, and the session map is
updated at that id. -/
theorem c10_missing_session_id_defaults (sysPrompt : Str) (env : AgentEnv)
    (sessions : SMap) (raw : Str) (kvs : List (Str × Json))
    (h1 : jsonLoads raw = some (Json.obj kvs))
    (h2 : pyDictGet kvs "session_id".data = none ∨
          pyDictGet kvs "session_id".data = some Json.null ∨
          pyDictGet kvs "session_id".data = some (Json.str []))
    (h3 : extractMsg kvs ≠ []) :
    chatWs sysPrompt env sessions raw =
      ⟨((runAgentStream sysPrompt env (getSession sessions "default".data).1
            (extractMsg kvs)).yields.filter (fun t => t ≠ [])).map WsFrame.token ++
          [WsFrame.done "default".data
            (runAgentStream sysPrompt env (getSession sessions "default".data).1
              (extractMsg kvs)).session.toolCallsCount],
        smapInsert (getSession sessions "default".data).2 "default".data
          (runAgentStream sysPrompt env (getSession sessions "default".data).1
            (extractMsg kvs)).session,
        false, false⟩ := by
  have hsid := extractSid_default kvs h2
  have hins := smapGet_insert (getSession sessions "default".data).2 "default".data
    (runAgentStream sysPrompt env (getSession sessions "default".data).1
      (extractMsg kvs)).session
  have hget2 := getSession_of_get _ "default".data _ hins
  simp [chatWs, h1, hsid, h3, hget2]

/-- Witness for C10 at a payload with no session_id field. -/
theorem c10_missing_session_id_defaults_witness :
    chatWs [] c1Env [] "\x7b\"message\": \"hi\"\x7d".data =
      ⟨((runAgentStream [] c1Env
            (getSession [] "default".data).1
            (extractMsg [("message".data, Json.str "hi".data)])).yields.filter
          (fun t => t ≠ [])).map WsFrame.token ++
          [WsFrame.done "default".data
            (runAgentStream [] c1Env (getSession [] "default".data).1
              (extractMsg [("message".data, Json.str "hi".data)])).session.toolCallsCount],
        smapInsert (getSession [] "default".data).2 "default".data
          (runAgentStream [] c1Env (getSession [] "default".data).1
            (extractMsg [("message".data, Json.str "hi".data)])).session,
        false, false⟩ :=
  c10_missing_session_id_defaults [] c1Env [] "\x7b\"message\": \"hi\"\x7d".data
    [("message".data, Json.str "hi".data)] rfl (Or.inl rfl) (by decide)

/-
  Round-trip machinery for claim C7: dumps followed by loads is the
  identity on the values the context service serializes.
-/

theorem isDigit_iff (c : Char) : c.isDigit = true ↔ 48 ≤ c.toNat ∧ c.toNat ≤ 57 := by
  simp only [Char.isDigit, Bool.and_eq_true, decide_eq_true_eq]
  exact ⟨fun h => ⟨h.1, h.2⟩, fun h => ⟨h.1, h.2⟩⟩

theorem char_ne_of_toNat (c d : Char) (h : c.toNat ≠ d.toNat) : c ≠ d :=
  fun he => h (he ▸ rfl)

theorem natDigits_isDigit (n : Nat) (c : Char) (h : c ∈ natDigits n) :
    c.isDigit = true := by
  have hb := natDigitsAux_all_digits _ n c h
  exact (isDigit_iff c).mpr hb

theorem digitsVal_append (xs : Str) (c : Char) :
    digitsVal (xs ++ [c]) = 10 * digitsVal xs + (c.toNat - 48) := by
  unfold digitsVal
  rw [List.foldl_append]
  simp [Nat.mul_comm]

theorem natDigitsAux_val : ∀ f n, n < f → digitsVal (natDigitsAux f n) = n := by
  intro f
  induction f with
  | zero => intro n h; omega
  | succ f ih =>
    intro n h
    simp only [natDigitsAux]
    by_cases h10 : n < 10
    · rw [if_pos h10]
      simp [digitsVal, digitChar_toNat n h10]
    · rw [if_neg h10]
      rw [digitsVal_append, ih (n / 10) (by omega)]
      rw [digitChar_toNat _ (Nat.mod_lt n (by omega))]
      omega

theorem natDigits_val (n : Nat) : digitsVal (natDigits n) = n :=
  natDigitsAux_val (n + 1) n (by omega)

theorem natDigitsAux_head_ne_zero : ∀ f n, 0 < n → n < f →
    (natDigitsAux f n).head? ≠ some '0' := by
  intro f
  induction f with
  | zero => intro n h hf; omega
  | succ f ih =>
    intro n h hf
    simp only [natDigitsAux]
    by_cases h10 : n < 10
    · rw [if_pos h10]
      simp only [List.head?_cons, ne_eq, Option.some.injEq]
      intro he
      have := digitChar_toNat n h10
      rw [he] at this
      simp at this
      omega
    · rw [if_neg h10]
      have hfz : 0 < f := by omega
      have hne := natDigitsAux_ne_nil f (n / 10) hfz
      cases hhd : natDigitsAux f (n / 10) with
      | nil => exact absurd hhd hne
      | cons a t =>
        have hih := ih (n / 10) (by omega) (by omega)
        rw [hhd] at hih
        simp only [List.cons_append, List.head?_cons] at hih ⊢
        exact hih

/-- A following string is safe after a number token when it does not start
with a character that would extend the token. -/
def safeFollow : Str → Prop
  | [] => True
  | c :: _ => ¬(c.isDigit = true ∨ c = '.' ∨ c = 'e' ∨ c = 'E')

theorem takeWhile_append_all (p : Char → Bool) (l1 l2 : Str) (h : ∀ x ∈ l1, p x) :
    (l1 ++ l2).takeWhile p = l1 ++ l2.takeWhile p := by
  induction l1 with
  | nil => rfl
  | cons a t ih =>
    simp only [List.cons_append, List.takeWhile_cons, h a (by simp)]
    rw [ih (fun x hx => h x (by simp [hx]))]
    simp

theorem takeDigits_append (ds rest : Str) (hds : ∀ c ∈ ds, c.isDigit = true)
    (hrest : safeFollow rest) : takeDigits (ds ++ rest) = (ds, rest) := by
  unfold takeDigits
  have hrd : rest.takeWhile Char.isDigit = [] ∧ rest.dropWhile Char.isDigit = rest := by
    cases rest with
    | nil => simp
    | cons c t =>
      have hc : c.isDigit = false := by
        unfold safeFollow at hrest
        push_neg at hrest
        simpa using hrest.1
      simp [List.takeWhile_cons, List.dropWhile_cons, hc]
  rw [takeWhile_append_all _ _ _ hds, dropWhile_append_all _ _ _ hds, hrd.1, hrd.2]
  simp

theorem pFrac_safe (rest : Str) (hrest : safeFollow rest) : pFrac rest = ([], rest) := by
  cases rest with
  | nil => rfl
  | cons p1 t1 =>
    unfold safeFollow at hrest
    push_neg at hrest
    simp [pFrac, hrest.2.1]

theorem pExp_safe (rest : Str) (hrest : safeFollow rest) : pExp rest = ([], rest) := by
  cases rest with
  | nil => rfl
  | cons p1 t1 =>
    unfold safeFollow at hrest
    push_neg at hrest
    simp [pExp, hrest.2.2.1, hrest.2.2.2]

theorem pNumber_natDigits (neg : Bool) (n : Nat) (rest : Str) (hrest : safeFollow rest) :
    pNumber ((if neg then ['-'] else []) ++ (natDigits n ++ rest)) =
      some (Json.int (if neg then -(Int.ofNat n) else Int.ofNat n), rest) := by
  have hsplit : takeDigits (natDigits n ++ rest) = (natDigits n, rest) :=
    takeDigits_append _ _ (fun c hc => natDigits_isDigit n c hc) hrest
  obtain ⟨c0, t0, hct, hlo, hhi⟩ := natDigits_head_cons n
  have hc0d : c0.isDigit = true := (isDigit_iff c0).mpr ⟨hlo, hhi⟩
  have hc0m : c0 ≠ '-' := char_ne_of_toNat c0 '-' (by intro hx; simp at hx; omega)
  have hfr := pFrac_safe rest hrest
  have hex := pExp_safe rest hrest
  rcases Nat.eq_zero_or_pos n with h0 | h0
  · subst h0
    have h00 : natDigits 0 = ['0'] := rfl
    cases neg <;>
      simp [pNumber, h00, hfr, hex, digitsVal]
  · have hne0 : c0 ≠ '0' := by
      have := natDigitsAux_head_ne_zero (n + 1) n h0 (by omega)
      rw [show natDigitsAux (n + 1) n = natDigits n from rfl, hct] at this
      simpa using this
    have hsplit2 : takeDigits (c0 :: (t0 ++ rest)) = (c0 :: t0, rest) := by
      rw [← List.cons_append, ← hct]
      exact hsplit
    have hval : digitsVal (c0 :: t0) = n := by
      rw [← hct]
      exact natDigits_val n
    cases neg <;>
      simp [pNumber, hct, List.cons_append, hc0m, hc0d, hne0, hsplit2, hfr, hex, hval]

theorem pNumber_intStr (i : Int) (rest : Str) (hrest : safeFollow rest) :
    pNumber (intStr i ++ rest) = some (Json.int i, rest) := by
  unfold intStr
  by_cases hi : i < 0
  · rw [if_pos hi]
    have h := pNumber_natDigits true i.natAbs rest hrest
    simp at h
    rw [List.cons_append, h]
    have hv : -|i| = i := by rw [abs_of_neg hi]; ring
    rw [hv]
  · rw [if_neg hi]
    have h := pNumber_natDigits false i.toNat rest hrest
    simp at h
    rw [h]
    have hv : i ⊔ 0 = i := max_eq_left (by omega)
    rw [hv]

theorem hexDigitVal_hexDigitChar (d : Nat) (h : d < 16) :
    hexDigitVal (hexDigitChar d) = some d := by
  interval_cases d <;> decide

theorem readHex4_toHex4 (n : Nat) (h : n < 0x10000) (r : Str) :
    readHex4 (toHex4 n ++ r) = some (n, r) := by
  unfold toHex4 readHex4
  simp only [List.cons_append, List.nil_append]
  rw [hexDigitVal_hexDigitChar _ (by omega), hexDigitVal_hexDigitChar _ (by omega),
    hexDigitVal_hexDigitChar _ (by omega), hexDigitVal_hexDigitChar _ (by omega)]
  have he : n / 4096 % 16 * 4096 + n / 256 % 16 * 256 + n / 16 % 16 * 16 + n % 16 = n := by
    omega
  show some (n / 4096 % 16 * 4096 + n / 256 % 16 * 256 + n / 16 % 16 * 16 + n % 16, r) =
    some (n, r)
  rw [he]

theorem char_valid_toNat (c : Char) :
    c.toNat < 0xD800 ∨ (0xDFFF < c.toNat ∧ c.toNat < 0x110000) := c.valid

theorem char_toNat_lt (c : Char) : c.toNat < 0x110000 := by
  rcases char_valid_toNat c with h | h <;> omega

theorem char_not_high_surrogate (c : Char) : ¬(0xD800 ≤ c.toNat ∧ c.toNat ≤ 0xDBFF) := by
  rcases char_valid_toNat c with h | h <;> omega

theorem char_not_low_surrogate (c : Char) : ¬(0xDC00 ≤ c.toNat ∧ c.toNat ≤ 0xDFFF) := by
  rcases char_valid_toNat c with h | h <;> omega

theorem charOfNat_toNat_valid (n : Nat) (h : n.isValidChar) : (Char.ofNat n).toNat = n := by
  unfold Char.ofNat
  rw [dif_pos h]
  rfl

theorem parseStringBodyF_escBody : ∀ (cs : Str) (f : Nat) (rest : Str), cs.length < f →
    parseStringBodyF f (escBody cs ++ '"' :: rest) = some (cs, rest) := by
  intro cs
  induction cs with
  | nil =>
    intro f rest hf
    obtain ⟨f2, rfl⟩ : ∃ f2, f = f2 + 1 := ⟨f - 1, by omega⟩
    simp [escBody, parseStringBodyF]
  | cons c cs ih =>
    intro f rest hf
    obtain ⟨f2, rfl⟩ : ∃ f2, f = f2 + 1 := ⟨f - 1, by omega⟩
    simp only [List.length_cons] at hf
    have hf2 : cs.length < f2 := by omega
    have hrec := ih f2 rest hf2
    have hbody : escBody (c :: cs) ++ '"' :: rest =
        escChar c ++ (escBody cs ++ '"' :: rest) := by
      simp [escBody]
    rw [hbody]
    by_cases h1 : c = '"'
    · subst h1; simp [escChar, parseStringBodyF, hrec]
    · by_cases h2 : c = '\\'
      · subst h2; simp [escChar, parseStringBodyF, hrec]
      · by_cases h3 : c = '\x08'
        · subst h3; simp [escChar, parseStringBodyF, hrec]
        · by_cases h4 : c = '\t'
          · subst h4; simp [escChar, parseStringBodyF, hrec]
          · by_cases h5 : c = '\n'
            · subst h5; simp [escChar, parseStringBodyF, hrec]
            · by_cases h6 : c = '\x0c'
              · subst h6; simp [escChar, parseStringBodyF, hrec]
              · by_cases h7 : c = '\x0d'
                · subst h7; simp [escChar, parseStringBodyF, hrec]
                · by_cases hp : 0x20 ≤ c.toNat ∧ c.toNat ≤ 0x7E
                  · have hesc : escChar c = [c] := by
                      simp [escChar, h1, h2, h3, h4, h5, h6, h7, hp]
                    rw [hesc]
                    have hq : ¬(c = '"') := h1
                    have hnc : ¬(c.toNat < 0x20) := by omega
                    simp [parseStringBodyF, h1, h2, hnc, hrec]
                  · by_cases hlt : c.toNat < 0x10000
                    · have hesc : escChar c = '\\' :: 'u' :: toHex4 c.toNat := by
                        simp [escChar, h1, h2, h3, h4, h5, h6, h7, hp, hlt]
                      rw [hesc]
                      simp only [List.cons_append]
                      simp [parseStringBodyF, readHex4_toHex4 c.toNat hlt,
                        char_not_high_surrogate c, char_not_low_surrogate c,
                        Char.ofNat_toNat, hrec]
                    · have hge : 0x10000 ≤ c.toNat := by omega
                      have hlt2 := char_toNat_lt c
                      have hesc : escChar c =
                          ('\\' :: 'u' :: toHex4 (0xD800 + (c.toNat - 0x10000) / 1024)) ++
                          ('\\' :: 'u' :: toHex4 (0xDC00 + (c.toNat - 0x10000) % 1024)) := by
                        simp [escChar, h1, h2, h3, h4, h5, h6, h7, hp, hlt]
                      rw [hesc]
                      simp only [List.cons_append, List.append_assoc]
                      have hhi : (0xD800 + (c.toNat - 0x10000) / 1024) < 0x10000 := by omega
                      have hlo : (0xDC00 + (c.toNat - 0x10000) % 1024) < 0x10000 := by omega
                      have hr1 := readHex4_toHex4 _ hhi
                        ('\\' :: 'u' :: (toHex4 (0xDC00 + (c.toNat - 0x10000) % 1024) ++
                          (escBody cs ++ '"' :: rest)))
                      have hr2 := readHex4_toHex4 _ hlo (escBody cs ++ '"' :: rest)
                      have hhiS : 0xD800 ≤ 0xD800 + (c.toNat - 0x10000) / 1024 ∧
                          0xD800 + (c.toNat - 0x10000) / 1024 ≤ 0xDBFF := by omega
                      have hloS : 0xDC00 ≤ 0xDC00 + (c.toNat - 0x10000) % 1024 ∧
                          0xDC00 + (c.toNat - 0x10000) % 1024 ≤ 0xDFFF := by omega
                      have hcp : 0x10000 +
                          (0xD800 + (c.toNat - 0x10000) / 1024 - 0xD800) * 1024 +
                          (0xDC00 + (c.toNat - 0x10000) % 1024 - 0xDC00) = c.toNat := by
                        omega
                      unfold parseStringBodyF
                      simp [hr1, hr2, hhiS, hloS, hrec]
                      have hcp2 : 65536 + (c.toNat - 65536) / 1024 * 1024 +
                          (c.toNat - 65536) % 1024 = c.toNat := by omega
                      rw [hcp2, Char.ofNat_toNat]

theorem escChar_ne_nil (c : Char) : escChar c ≠ [] := by
  unfold escChar
  split_ifs <;> simp

theorem escBody_length (cs : Str) : cs.length ≤ (escBody cs).length := by
  induction cs with
  | nil => simp [escBody]
  | cons c cs ih =>
    have h1 : 0 < (escChar c).length := List.length_pos.mpr (escChar_ne_nil c)
    simp only [escBody, List.flatMap_cons, List.length_append, List.length_cons]
    simp only [escBody] at ih
    omega

theorem parseStringBody_escBody (cs rest : Str) :
    parseStringBody (escBody cs ++ '"' :: rest) = some (cs, rest) := by
  unfold parseStringBody
  apply parseStringBodyF_escBody
  have h := escBody_length cs
  simp only [List.length_append, List.length_cons]
  omega

theorem stripLit_self (l rest : Str) : stripLit l (l ++ rest) = some rest := by
  induction l with
  | nil => rfl
  | cons a t ih => simp [stripLit, ih]

theorem skipWs_cons_not (c : Char) (x : Str) (h : jsonSpace c = false) :
    skipWs (c :: x) = c :: x := by
  simp [skipWs, List.dropWhile_cons, h]

theorem skipWs_cons_space (x : Str) : skipWs (' ' :: x) = skipWs x := by
  simp [skipWs, List.dropWhile_cons, jsonSpace]

theorem jsonSpace_false_of_range (c : Char)
    (h : c.toNat ≠ 32 ∧ c.toNat ≠ 9 ∧ c.toNat ≠ 10 ∧ c.toNat ≠ 13) :
    jsonSpace c = false := by
  unfold jsonSpace
  simp only [Bool.or_eq_false_iff, decide_eq_false_iff_not]
  refine ⟨⟨⟨?_, ?_⟩, ?_⟩, ?_⟩ <;> (intro he; subst he; simp at h)

/-- Leading character of a serialized value: never whitespace and never a
closing bracket, so the parser dispatch after an opening bracket is
unambiguous. -/
theorem dumps_head (v : Json) (h : noRaw v = true) :
    ∃ c t, dumps v = c :: t ∧ jsonSpace c = false ∧ c ≠ ']' ∧ c ≠ rbrace := by
  cases v with
  | null => exact ⟨'n', _, rfl, by decide, by decide, by decide⟩
  | bool b =>
    cases b with
    | false => exact ⟨'f', _, rfl, by decide, by decide, by decide⟩
    | true => exact ⟨'t', _, rfl, by decide, by decide, by decide⟩
  | int n =>
    by_cases hn : n < 0
    · refine ⟨'-', natDigits n.natAbs, ?_, by decide, by decide, by decide⟩
      simp [dumps, intStr, hn]
    · obtain ⟨c0, t0, hct, hlo, hhi⟩ := natDigits_head_cons n.toNat
      refine ⟨c0, t0, ?_, ?_, ?_, ?_⟩
      · simp [dumps, intStr, hn, hct]
      · exact jsonSpace_false_of_range c0 (by omega)
      · exact char_ne_of_toNat c0 ']' (by intro hx; simp at hx; omega)
      · exact char_ne_of_toNat c0 rbrace (by intro hx; simp [rbrace] at hx; omega)
  | numRaw raw => simp [noRaw] at h
  | str s => exact ⟨'"', _, rfl, by decide, by decide, by decide⟩
  | arr l =>
    cases l with
    | nil => exact ⟨'[', _, rfl, by decide, by decide, by decide⟩
    | cons x xs => exact ⟨'[', _, rfl, by decide, by decide, by decide⟩
  | obj l =>
    cases l with
    | nil => exact ⟨lbrace, _, rfl, by decide, by decide, by decide⟩
    | cons m ms => exact ⟨lbrace, _, rfl, by decide, by decide, by decide⟩

theorem skipWs_dumps (v : Json) (h : noRaw v = true) (rest : Str) :
    skipWs (dumps v ++ rest) = dumps v ++ rest := by
  obtain ⟨c, t, hct, hws, _, _⟩ := dumps_head v h
  rw [hct, List.cons_append, skipWs_cons_not c _ hws]

/-- Member text of a non-empty serialized object, without the braces. -/
def membersBody : List (Str × Json) → Str
  | [] => []
  | m :: ms => dumpsMember m ++ dumpsMembers ms

/-- Item text of a non-empty serialized array, without the brackets. -/
def itemsBody : List Json → Str
  | [] => []
  | x :: xs => dumps x ++ dumpsItems xs

theorem dumps_obj_cons (m : Str × Json) (ms : List (Str × Json)) :
    dumps (Json.obj (m :: ms)) = lbrace :: (membersBody (m :: ms) ++ [rbrace]) := by
  simp [dumps, membersBody]

theorem dumps_arr_cons (x : Json) (xs : List Json) :
    dumps (Json.arr (x :: xs)) = '[' :: (itemsBody (x :: xs) ++ [']']) := by
  simp [dumps, itemsBody]

theorem dumpsMembers_cons (m : Str × Json) (ms : List (Str × Json)) :
    dumpsMembers (m :: ms) = ',' :: ' ' :: membersBody (m :: ms) := by
  simp [dumpsMembers, membersBody]

theorem dumpsItems_cons (x : Json) (xs : List Json) :
    dumpsItems (x :: xs) = ',' :: ' ' :: itemsBody (x :: xs) := by
  simp [dumpsItems, itemsBody]

theorem safeFollow_rbrace (x : Str) : safeFollow (rbrace :: x) := by
  show ¬(rbrace.isDigit = true ∨ rbrace = '.' ∨ rbrace = 'e' ∨ rbrace = 'E')
  decide

theorem safeFollow_rbracket (x : Str) : safeFollow (']' :: x) := by
  show ¬((']' : Char).isDigit = true ∨ (']' : Char) = '.' ∨ (']' : Char) = 'e' ∨
    (']' : Char) = 'E')
  decide

theorem safeFollow_comma (x : Str) : safeFollow (',' :: x) := by
  show ¬((',' : Char).isDigit = true ∨ (',' : Char) = '.' ∨ (',' : Char) = 'e' ∨
    (',' : Char) = 'E')
  decide

theorem dumpsMember_length (k : Str) (v : Json) :
    (dumpsMember (k, v)).length = (escBody k).length + 4 + (dumps v).length := by
  simp [dumpsMember]
  omega

theorem pItemsAux (f : Nat)
    (ihP : ∀ v rest, noRaw v = true → (dumps v).length < f → safeFollow rest →
      pVal f (dumps v ++ rest) = some (v, rest))
    (ihR : ∀ l rest, noRawItems l = true → l ≠ [] → (itemsBody l).length + 1 < f →
      pItems f (itemsBody l ++ ']' :: rest) = some (l, rest))
    (x : Json) (xs : List Json) (rest : Str)
    (hnr : noRawItems (x :: xs) = true)
    (hlen : (itemsBody (x :: xs)).length + 1 < f + 1) :
    pItems (f + 1) (itemsBody (x :: xs) ++ ']' :: rest) = some (x :: xs, rest) := by
  have hnx : noRaw x = true ∧ noRawItems xs = true := by
    have h := hnr
    simp [noRawItems] at h
    exact h
  cases xs with
  | nil =>
    have hlenx : (dumps x).length < f := by
      have h := hlen
      simp [itemsBody, dumpsItems] at h
      omega
    have hv := ihP x (']' :: rest) hnx.1 hlenx (safeFollow_rbracket rest)
    unfold pItems
    rw [show itemsBody [x] ++ ']' :: rest = dumps x ++ ']' :: rest from by
      simp [itemsBody, dumpsItems]]
    rw [hv]
    simp [skipWs_cons_not ']' rest (by decide)]
  | cons y ys =>
    have hlens : (itemsBody (y :: ys)).length + 1 < f ∧ (dumps x).length < f := by
      have h := hlen
      rw [show itemsBody (x :: y :: ys) =
        dumps x ++ (',' :: ' ' :: itemsBody (y :: ys)) from by
          simp [itemsBody, dumpsItems_cons]] at h
      simp at h
      omega
    have hny : noRaw y = true ∧ noRawItems ys = true := by
      have h := hnx.2
      simp [noRawItems] at h
      exact h
    have hv := ihP x (',' :: ' ' :: (itemsBody (y :: ys) ++ ']' :: rest)) hnx.1
      hlens.2 (safeFollow_comma _)
    have htail := ihR (y :: ys) rest hnx.2 (by simp) hlens.1
    have hskip : skipWs (itemsBody (y :: ys) ++ ']' :: rest) =
        itemsBody (y :: ys) ++ ']' :: rest := by
      show skipWs ((dumps y ++ dumpsItems ys) ++ ']' :: rest) = _
      rw [List.append_assoc, skipWs_dumps y hny.1, ← List.append_assoc]
      rfl
    unfold pItems
    rw [show itemsBody (x :: y :: ys) ++ ']' :: rest =
        dumps x ++ (',' :: ' ' :: (itemsBody (y :: ys) ++ ']' :: rest)) from by
      simp [itemsBody, dumpsItems_cons]]
    rw [hv]
    simp [skipWs_cons_not ',' _ (by decide), skipWs_cons_space, hskip, htail]

theorem pMembersAux (f : Nat)
    (ihP : ∀ v rest, noRaw v = true → (dumps v).length < f → safeFollow rest →
      pVal f (dumps v ++ rest) = some (v, rest))
    (ihQ : ∀ l rest, noRawMembers l = true → l ≠ [] → (membersBody l).length + 1 < f →
      pMembers f (membersBody l ++ rbrace :: rest) = some (l, rest))
    (m : Str × Json) (ms : List (Str × Json)) (rest : Str)
    (hnr : noRawMembers (m :: ms) = true)
    (hlen : (membersBody (m :: ms)).length + 1 < f + 1) :
    pMembers (f + 1) (membersBody (m :: ms) ++ rbrace :: rest) =
      some (m :: ms, rest) := by
  obtain ⟨k, v⟩ := m
  have hnv : noRaw v = true ∧ noRawMembers ms = true := by
    have h := hnr
    simp [noRawMembers] at h
    exact h
  cases ms with
  | nil =>
    have hlenv : (dumps v).length < f := by
      have h := hlen
      rw [show membersBody [(k, v)] = dumpsMember (k, v) from by
        simp [membersBody, dumpsMembers]] at h
      rw [dumpsMember_length] at h
      omega
    have hv := ihP v (rbrace :: rest) hnv.1 hlenv (safeFollow_rbrace rest)
    have hsk : skipWs (dumps v ++ rbrace :: rest) = dumps v ++ rbrace :: rest :=
      skipWs_dumps v hnv.1 _
    unfold pMembers
    rw [show membersBody [(k, v)] ++ rbrace :: rest =
        '"' :: (escBody k ++ '"' :: (':' :: ' ' :: (dumps v ++ rbrace :: rest)))
      from by simp [membersBody, dumpsMembers, dumpsMember]]
    simp [parseStringBody_escBody, skipWs_cons_not ':' _ (by decide),
      skipWs_cons_space, hsk, hv, skipWs_cons_not rbrace rest (by decide),
      (by decide : rbrace ≠ ',')]
  | cons m2 ms2 =>
    have hlens : (membersBody (m2 :: ms2)).length + 1 < f ∧ (dumps v).length < f := by
      have h := hlen
      rw [show membersBody ((k, v) :: m2 :: ms2) =
        dumpsMember (k, v) ++ (',' :: ' ' :: membersBody (m2 :: ms2)) from by
          simp [membersBody, dumpsMembers_cons]] at h
      rw [List.length_append, dumpsMember_length] at h
      simp at h
      omega
    have hnm2 : noRaw m2.2 = true ∧ noRawMembers ms2 = true := by
      have h := hnv.2
      obtain ⟨k2, v2⟩ := m2
      simp [noRawMembers] at h
      exact h
    have hv := ihP v (',' :: ' ' :: (membersBody (m2 :: ms2) ++ rbrace :: rest))
      hnv.1 hlens.2 (safeFollow_comma _)
    have htail := ihQ (m2 :: ms2) rest hnv.2 (by simp) hlens.1
    have hsk : skipWs (dumps v ++
        (',' :: ' ' :: (membersBody (m2 :: ms2) ++ rbrace :: rest))) =
        dumps v ++ (',' :: ' ' :: (membersBody (m2 :: ms2) ++ rbrace :: rest)) :=
      skipWs_dumps v hnv.1 _
    have hskipm : skipWs (membersBody (m2 :: ms2) ++ rbrace :: rest) =
        membersBody (m2 :: ms2) ++ rbrace :: rest := by
      obtain ⟨k2, v2⟩ := m2
      rw [show membersBody ((k2, v2) :: ms2) ++ rbrace :: rest =
          '"' :: (escBody k2 ++ ['"', ':', ' '] ++ dumps v2 ++
            (dumpsMembers ms2 ++ rbrace :: rest)) from by
        simp [membersBody, dumpsMember]]
      exact skipWs_cons_not '"' _ (by decide)
    unfold pMembers
    rw [show membersBody ((k, v) :: m2 :: ms2) ++ rbrace :: rest =
        '"' :: (escBody k ++ '"' :: (':' :: ' ' :: (dumps v ++
          (',' :: ' ' :: (membersBody (m2 :: ms2) ++ rbrace :: rest)))))
      from by simp [membersBody, dumpsMembers_cons, dumpsMember]]
    simp [parseStringBody_escBody, skipWs_cons_not ':' _ (by decide),
      skipWs_cons_space, hsk, hv, skipWs_cons_not ',' _ (by decide), hskipm, htail]

theorem digit_not_special (c : Char) (hlo : 48 ≤ c.toNat) (hhi : c.toNat ≤ 57) :
    c ≠ lbrace ∧ c ≠ '[' ∧ c ≠ '"' ∧ c ≠ 't' ∧ c ≠ 'f' ∧ c ≠ 'n' ∧ c ≠ 'N' ∧
      c ≠ 'I' ∧ c ≠ '-' := by
  refine ⟨char_ne_of_toNat _ _
      (by intro hx; rw [show lbrace.toNat = 123 from by decide] at hx; omega),
    char_ne_of_toNat _ _ (by intro hx; simp at hx; omega),
    char_ne_of_toNat _ _ (by intro hx; simp at hx; omega),
    char_ne_of_toNat _ _ (by intro hx; simp at hx; omega),
    char_ne_of_toNat _ _ (by intro hx; simp at hx; omega),
    char_ne_of_toNat _ _ (by intro hx; simp at hx; omega),
    char_ne_of_toNat _ _ (by intro hx; simp at hx; omega),
    char_ne_of_toNat _ _ (by intro hx; simp at hx; omega),
    char_ne_of_toNat _ _ (by intro hx; simp at hx; omega)⟩

set_option synthInstance.maxHeartbeats 400000 in
theorem pVal_dumps_inv : ∀ f : Nat,
    (∀ v rest, noRaw v = true → (dumps v).length < f → safeFollow rest →
      pVal f (dumps v ++ rest) = some (v, rest)) ∧
    (∀ l rest, noRawMembers l = true → l ≠ [] → (membersBody l).length + 1 < f →
      pMembers f (membersBody l ++ rbrace :: rest) = some (l, rest)) ∧
    (∀ l rest, noRawItems l = true → l ≠ [] → (itemsBody l).length + 1 < f →
      pItems f (itemsBody l ++ ']' :: rest) = some (l, rest)) := by
  intro f
  induction f with
  | zero =>
    refine ⟨fun v rest _ hlen _ => by omega, fun l rest _ _ hlen => by omega,
      fun l rest _ _ hlen => by omega⟩
  | succ f ih =>
    obtain ⟨ihP, ihQ, ihR⟩ := ih
    refine ⟨?_, ?_, ?_⟩
    · intro v rest hnr hlen hsafe
      cases v with
      | null =>
        show pVal (f + 1) (['n', 'u', 'l', 'l'] ++ rest) = some (Json.null, rest)
        unfold pVal
        simp [show ¬ ('n' : Char) = lbrace from by decide]
        exact stripLit_self ['u', 'l', 'l'] rest
      | bool b =>
        cases b with
        | false =>
          show pVal (f + 1) (['f', 'a', 'l', 's', 'e'] ++ rest) =
            some (Json.bool false, rest)
          unfold pVal
          simp [show ¬ ('f' : Char) = lbrace from by decide]
          exact stripLit_self ['a', 'l', 's', 'e'] rest
        | true =>
          show pVal (f + 1) (['t', 'r', 'u', 'e'] ++ rest) =
            some (Json.bool true, rest)
          unfold pVal
          simp [show ¬ ('t' : Char) = lbrace from by decide]
          exact stripLit_self ['r', 'u', 'e'] rest
      | int n =>
        show pVal (f + 1) (intStr n ++ rest) = some (Json.int n, rest)
        have hp := pNumber_intStr n rest hsafe
        by_cases hn : n < 0
        · have hint : intStr n = '-' :: natDigits n.natAbs := by simp [intStr, hn]
          obtain ⟨c0, t0, hct, hlo, hhi⟩ := natDigits_head_cons n.natAbs
          have hcI : c0 ≠ 'I' := char_ne_of_toNat c0 'I'
            (by intro hx; simp at hx; omega)
          rw [hint, hct] at hp ⊢
          unfold pVal
          simp only [List.cons_append] at hp ⊢
          simp [hcI, hp, show ¬ ('-' : Char) = lbrace from by decide]
        · have hint : intStr n = natDigits n.toNat := by simp [intStr, hn]
          obtain ⟨c0, t0, hct, hlo, hhi⟩ := natDigits_head_cons n.toNat
          obtain ⟨d1, d2, d3, d4, d5, d6, d7, d8, d9⟩ := digit_not_special c0 hlo hhi
          have hdig : c0.isDigit = true := (isDigit_iff c0).mpr ⟨hlo, hhi⟩
          rw [hint, hct] at hp ⊢
          unfold pVal
          simp only [List.cons_append] at hp ⊢
          simp [d1, d2, d3, d4, d5, d6, d7, d8, d9, hdig, hp]

      | numRaw raw => simp [noRaw] at hnr
      | str s =>
        show pVal (f + 1) (('"' :: escBody s ++ ['"']) ++ rest) =
          some (Json.str s, rest)
        unfold pVal
        simp only [List.cons_append, List.append_assoc, List.singleton_append]
        simp [parseStringBody_escBody, show ¬ ('"' : Char) = lbrace from by decide]
      | arr l =>
        cases l with
        | nil =>
          show pVal (f + 1) (['[', ']'] ++ rest) = some (Json.arr [], rest)
          unfold pVal
          simp [skipWs_cons_not ']' rest (by decide),
            show ¬ ('[' : Char) = lbrace from by decide]
        | cons x xs =>
          have hnx : noRaw x = true ∧ noRawItems xs = true := by
            have : noRawItems (x :: xs) = true := hnr
            simp [noRawItems] at this
            exact this
          rw [show dumps (Json.arr (x :: xs)) ++ rest =
            '[' :: (itemsBody (x :: xs) ++ (']' :: rest)) from by
              rw [dumps_arr_cons]; simp]
          unfold pVal
          obtain ⟨c0, t0, hct, hws, hbr, _⟩ := dumps_head x hnx.1
          have hskip : skipWs (itemsBody (x :: xs) ++ ']' :: rest) =
              itemsBody (x :: xs) ++ ']' :: rest := by
            show skipWs ((dumps x ++ dumpsItems xs) ++ ']' :: rest) = _
            rw [List.append_assoc, skipWs_dumps x hnx.1, ← List.append_assoc]
            rfl
          have hlen2 : (itemsBody (x :: xs)).length + 1 < f := by
            rw [dumps_arr_cons] at hlen
            simp at hlen
            omega
          have hitems := ihR (x :: xs) rest hnr (by simp) hlen2
          have hshape : itemsBody (x :: xs) ++ ']' :: rest =
              c0 :: (t0 ++ (dumpsItems xs ++ ']' :: rest)) := by
            show (dumps x ++ dumpsItems xs) ++ ']' :: rest = _
            rw [hct]
            simp
          have hitems2 : pItems f (c0 :: (t0 ++ (dumpsItems xs ++ ']' :: rest))) =
              some (x :: xs, rest) := hshape ▸ hitems
          simp [hshape, skipWs_cons_not c0 _ hws, hbr, hitems2,
            show ¬ ('[' : Char) = lbrace from by decide]
      | obj l =>
        cases l with
        | nil =>
          show pVal (f + 1) ([lbrace, rbrace] ++ rest) = some (Json.obj [], rest)
          unfold pVal
          simp [skipWs_cons_not rbrace rest (by decide)]
        | cons m ms =>
          rw [show dumps (Json.obj (m :: ms)) ++ rest =
            lbrace :: (membersBody (m :: ms) ++ (rbrace :: rest)) from by
              rw [dumps_obj_cons]; simp]
          unfold pVal
          have hlen2 : (membersBody (m :: ms)).length + 1 < f := by
            rw [dumps_obj_cons] at hlen
            simp at hlen
            omega
          have hmem := ihQ (m :: ms) rest hnr (by simp) hlen2
          have hshape : membersBody (m :: ms) ++ rbrace :: rest =
              '"' :: (escBody m.1 ++ ['"', ':', ' '] ++ dumps m.2 ++
                (dumpsMembers ms ++ rbrace :: rest)) := by
            show (dumpsMember m ++ dumpsMembers ms) ++ rbrace :: rest = _
            obtain ⟨k, v⟩ := m
            simp [dumpsMember]
          have hskip : skipWs (membersBody (m :: ms) ++ rbrace :: rest) =
              membersBody (m :: ms) ++ rbrace :: rest := by
            rw [hshape]
            exact skipWs_cons_not '"' _ (by decide)
          have hmem2 : pMembers f ('"' :: (escBody m.1 ++ ['"', ':', ' '] ++
              dumps m.2 ++ (dumpsMembers ms ++ rbrace :: rest))) =
              some (m :: ms, rest) := hshape ▸ hmem
          simp [hshape, skipWs_cons_not '"' _ (by decide),
            show ¬ ('"' : Char) = rbrace from by decide]
          simpa using hmem2
    · exact fun l rest hnr hne hlen => by
        cases l with
        | nil => exact absurd rfl hne
        | cons m ms => exact pMembersAux f ihP ihQ m ms rest hnr hlen
    · exact fun l rest hnr hne hlen => by
        cases l with
        | nil => exact absurd rfl hne
        | cons x xs => exact pItemsAux f ihP ihR x xs rest hnr hlen

theorem jsonLoads_dumps (v : Json) (h : noRaw v = true) :
    jsonLoads (dumps v) = some v := by
  have hp := (pVal_dumps_inv ((dumps v).length + 1)).1 v [] h (by omega) trivial
  rw [List.append_nil] at hp
  have hskip : skipWs (dumps v) = dumps v := by
    simpa using skipWs_dumps v h []
  unfold jsonLoads
  rw [hskip, hp]
  rfl

theorem msgOfJson_msgToJson (m : Msg) : msgOfJson (msgToJson m) = some m := by
  simp [msgOfJson, msgToJson]

theorem mapM_loop_map (t : List Msg) (acc : List Msg) :
    List.mapM.loop msgOfJson (t.map msgToJson) acc = some (acc.reverse ++ t) := by
  induction t generalizing acc with
  | nil => simp [List.mapM.loop]
  | cons a t ih => simp [List.mapM.loop, msgOfJson_msgToJson, ih]

theorem msgsOfJson_map (l : List Msg) :
    msgsOfJson (Json.arr (l.map msgToJson)) = some l := by
  simp only [msgsOfJson, List.mapM]
  simpa using mapM_loop_map l []

theorem noRawItems_map_msg (l : List Msg) :
    noRawItems (l.map msgToJson) = true := by
  induction l with
  | nil => rfl
  | cons a t ih => simp [noRawItems, msgToJson, noRaw, noRawMembers, ih]

theorem noRaw_sessionToDict (st : SessionState) :
    noRaw (sessionToDict st) = true := by
  simp [sessionToDict, noRaw, noRawMembers, noRawItems_map_msg st.messages]

theorem dictToSession_sessionToDict (st : SessionState) :
    dictToSession
      [("session_id".data, Json.str st.sessionId),
       ("messages".data, Json.arr (st.messages.map msgToJson)),
       ("investigation_summary".data, Json.str st.investigationSummary),
       ("tool_calls_count".data, Json.int st.toolCallsCount)] = some st := by
  simp [dictToSession, pyDictGet, msgsOfJson_map, pyIntOf]

theorem storeGet_storeSet (m : Store) (k v : Str) :
    storeGet (storeSet m k v) k = some v := by
  induction m with
  | nil => simp [storeSet, storeGet]
  | cons p t ih =>
    obtain ⟨k2, v2⟩ := p
    by_cases h : k2 = k
    · simp [storeSet, storeGet, h]
    · simp [storeSet, storeGet, h, ih]

/-- C7: for every session state, saving it to the external store and loading
it back under the same session id returns exactly the original state: the
session id, message list, investigation summary, and tool-call counter all
round-trip through the JSON serialization. -/
theorem c7_save_load_round_trip (store : Store) (sid : Str) (st : SessionState) :
    getContext (saveContext store sid st) sid = some st := by
  unfold saveContext getContext
  rw [storeGet_storeSet]
  simp only [jsonLoads_dumps _ (noRaw_sessionToDict st)]
  simp only [sessionToDict]
  exact dictToSession_sessionToDict st
